import Mathlib

/-!
Shallow embedding of the AST-based n8n node-schema extractor
(src/extract-node-schemas-ast.ts) and proofs about the claims on its
cross-file resolution and version-selection engine.

Modelling conventions:
- JavaScript runtime values produced by the literal interpreter
  (extractValueFromNode) are modelled by the inductive type Value;
  JS truthiness is jsTruthy.
- JS objects are association lists with insertion-order semantics:
  assignment to an existing key keeps its position (setKey).
- File paths are '/'-separated strings; path.basename / path.dirname are
  modelled for such paths (the extractor only ever sees glob results of
  that shape).
- Numeric literals are modelled by their parseInt value (an Int), exactly
  as the source stores them.
-/

namespace NodeExtract

/-- Runtime value as produced by the literal interpreter of the extractor:
string, number (parseInt result), boolean, array or object literal. -/
inductive Value where
  | str (s : String)
  | num (n : Int)
  | bool (b : Bool)
  | arr (elems : List Value)
  | obj (fields : List (String × Value))

/-- JS truthiness of a Value (empty string, 0 and false are falsy;
arrays and objects are always truthy). -/
def jsTruthy : Value → Bool
  | .str s => !s.isEmpty
  | .num n => n != 0
  | .bool b => b
  | .arr _ => true
  | .obj _ => true

/-- Truthiness of a possibly-undefined value (undefined is falsy). -/
def jsTruthyOpt : Option Value → Bool
  | some v => jsTruthy v
  | none => false

/-- Lookup of a key in a JS-object association list. -/
def getKey : List (String × α) → String → Option α
  | [], _ => none
  | (k', v) :: rest, k => if k' = k then some v else getKey rest k

/-- Assignment to a key in a JS-object association list: overwriting an
existing key keeps its position, a new key is appended (JS object
insertion-order semantics). -/
def setKey : List (String × α) → String → α → List (String × α)
  | [], k, v => [(k, v)]
  | (k', v') :: rest, k, v =>
      if k' = k then (k, v) :: rest else (k', v') :: setKey rest k v

/-- JS a || b for possibly-undefined operands. -/
def jsOr (a b : Option Value) : Option Value :=
  match a with
  | some v => if jsTruthy v then some v else b
  | none => b

/-- JS a || b where the fallback is a definite value. -/
def jsOrV (a : Option Value) (b : Value) : Value :=
  match a with
  | some v => if jsTruthy v then v else b
  | none => b

/-- JS member access v?.k: property lookup on objects, undefined on
every other value (and on undefined itself). -/
def jsGetOpt (v : Option Value) (k : String) : Option Value :=
  match v with
  | some (.obj fields) => getKey fields k
  | _ => none

mutual

/-- JS String(v) / template-literal interpolation of a Value. -/
def jsToString : Value → String
  | .str s => s
  | .num n => toString n
  | .bool b => if b then "true" else "false"
  | .arr vs => jsToStringList vs
  | .obj _ => "[object Object]"

/-- Array.prototype.toString: elements joined by commas. -/
def jsToStringList : List Value → String
  | [] => ""
  | [v] => jsToString v
  | v :: rest => jsToString v ++ "," ++ jsToStringList rest

end

mutual

/-- JSON.stringify of a Value (string escaping beyond quoting is not
needed for any literal the claims touch). -/
def jsonStringify : Value → String
  | .str s => "\"" ++ s ++ "\""
  | .num n => toString n
  | .bool b => if b then "true" else "false"
  | .arr vs => "[" ++ jsonStringifyList vs ++ "]"
  | .obj fs => "\x7b" ++ jsonStringifyFields fs ++ "\x7d"

/-- JSON.stringify of an array body. -/
def jsonStringifyList : List Value → String
  | [] => ""
  | [v] => jsonStringify v
  | v :: rest => jsonStringify v ++ "," ++ jsonStringifyList rest

/-- JSON.stringify of an object body. -/
def jsonStringifyFields : List (String × Value) → String
  | [] => ""
  | [(k, v)] => "\"" ++ k ++ "\":" ++ jsonStringify v
  | (k, v) :: rest =>
      "\"" ++ k ++ "\":" ++ jsonStringify v ++ "," ++ jsonStringifyFields rest

end

/-- Template interpolation of JSON.stringify(x) where x may be undefined
(JS renders undefined as the text undefined). -/
def jsonStringifyOpt : Option Value → String
  | some v => jsonStringify v
  | none => "undefined"

/-- Object.entries of a Value: object fields, array index/element pairs,
string index/character pairs, and nothing for primitives. -/
def jsEntries : Value → List (String × Value)
  | .obj fields => fields
  | .arr vs => vs.enum.map (fun p => (toString p.1, p.2))
  | .str s => s.data.enum.map (fun p => (toString p.1, .str (String.mk [p.2])))
  | _ => []

/-- Extraction quality tier of a schema. -/
inductive Quality where
  | high
  | medium
  | low
deriving DecidableEq

/-- Conditional-context record attached to an expanded parameter
(condition key, accepted value, human-readable guard text). -/
structure CondContext where
  condition : String
  value : Value
  description : String

/-- workflowJsonStructure record of a parameter. All fields are optional
so that the spread of an absent record behaves like the JS spread of
undefined. -/
structure WorkflowJsonStructure where
  parameterName : Option Value := none
  workflowJsonValue : Option Value := none
  usage : Option String := none
  type : Option Value := none
  required : Option Value := none
  conditionalContext : Option CondContext := none

/-- ExtractedParameterSchema: one parameter record emitted by the
extractor. Fields hold the raw interpreted literal values, exactly as
the source copies them without coercion. -/
structure ExtractedParameterSchema where
  name : Value
  displayName : Value
  type : Value
  default : Option Value := none
  description : Option Value := none
  required : Option Value := none
  placeholder : Option Value := none
  hint : Option Value := none
  options : Option Value := none
  displayOptions : Option Value := none
  typeOptions : Option Value := none
  routing : Option Value := none
  modes : Option Value := none
  extractValue : Option Value := none
  nested : Option Value := none
  exampleValue : Option Value := none
  workflowJsonStructure : WorkflowJsonStructure := {}

/-- ExtractedNodeSchema: one logical node's canonical extraction result. -/
structure ExtractedNodeSchema where
  displayName : Value
  name : Value
  description : Option Value := none
  group : Option Value := none
  version : Value := .num 1
  icon : Option Value := none
  parameters : List ExtractedParameterSchema := []
  credentials : Option Value := none
  webhookId : Option Value := none
  polling : Option Value := none
  supportsCORS : Option Value := none
  extractionQuality : Quality := .low
  extractionNotes : List String := []

/-! ### String and path helpers (modelling the Node path functions and
the regular expressions of the source over '/'-separated paths). -/

/-- Split a character list at every occurrence of a separator character;
never returns an empty list (String.prototype.split semantics). -/
def splitSep (sep : Char) : List Char → List (List Char)
  | [] => [[]]
  | c :: rest =>
      match splitSep sep rest with
      | [] => if c = sep then [[], []] else [[c]]
      | seg :: segs => if c = sep then [] :: seg :: segs else (c :: seg) :: segs

/-- Components of a '/'-separated path (filePath.split(path.sep)). -/
def pathParts (p : String) : List String :=
  (splitSep '/' p.data).map String.mk

/-- path.basename for a '/'-separated path without trailing separator. -/
def baseNameOf (p : String) : String :=
  ((pathParts p).getLast?).getD ""

/-- path.basename(path.dirname p) for a '/'-separated path. -/
def dirNameOf (p : String) : String :=
  (((pathParts p).dropLast).getLast?).getD "."

/-- Does the character list end with the given suffix? -/
def charsEndsWith (cs suffix : List Char) : Bool :=
  suffix.isSuffixOf cs

/-- path.basename(p, ext): strip ext from the basename when it is a
proper suffix of it. -/
def stripSuffixStr (s suffix : String) : String :=
  if s ≠ suffix ∧ charsEndsWith s.data suffix.data then
    String.mk (s.data.take (s.data.length - suffix.data.length))
  else s

/-- Is sub a contiguous infix of cs? -/
def charsContains : List Char → List Char → Bool
  | cs, sub =>
      match cs with
      | [] => sub.isEmpty
      | _ :: rest => sub.isPrefixOf cs || charsContains rest sub

/-- String.prototype.includes as used by the source. -/
def strContains (s sub : String) : Bool :=
  charsContains s.data sub.data

/-- String.prototype.toLowerCase (ASCII, which is all the source needs). -/
def lowerStr (s : String) : String :=
  String.mk (s.data.map Char.toLower)

/-- parseInt of a non-empty decimal digit string. -/
def digitsToNat (cs : List Char) : Nat :=
  cs.foldl (fun n c => n * 10 + (c.toNat - '0'.toNat)) 0

/-- Split a character list into the part before and the maximal run of
trailing decimal digits. -/
def splitTrailingDigits (cs : List Char) : List Char × List Char :=
  let rev := cs.reverse
  ((rev.dropWhile Char.isDigit).reverse, (rev.takeWhile Char.isDigit).reverse)

/-- Result of matching a name against the regex [Vv](digits)$ :
the captured version number, when the name ends in V or v followed by at
least one digit. -/
def fileVersionMatch (name : String) : Option Nat :=
  let (pre, digits) := splitTrailingDigits name.data
  if digits ≠ [] ∧ (pre.getLast? = some 'V' ∨ pre.getLast? = some 'v') then
    some (digitsToNat digits)
  else none

/-- Result of matching a name against the regex ^[Vv](digits)$ : the
captured version number when the whole name is V or v plus digits. -/
def dirVersionMatch (name : String) : Option Nat :=
  match name.data with
  | c :: rest =>
      if (c = 'V' ∨ c = 'v') ∧ rest ≠ [] ∧ rest.all Char.isDigit then
        some (digitsToNat rest)
      else none
  | [] => none

/-- The basename of a candidate file with the .node.ts suffix stripped,
as computed by path.basename(filePath, '.node.ts'). -/
def fileNameOf (filePath : String) : String :=
  stripSuffixStr (baseNameOf filePath) ".node.ts"

/-- The versionNum computed by calculateVersionPriority: 0 by default,
set from the file-name match, then raised by Math.max with the
directory-name match. -/
def versionNumOf (filePath : String) : Nat :=
  let v1 :=
    match fileVersionMatch (fileNameOf filePath) with
    | some v => v
    | none => 0
  match dirVersionMatch (dirNameOf filePath) with
  | some v => max v1 v
  | none => v1

/-- Does some path component match ^[Vv][2-9]$ (versioned directory)? -/
def hasVersionedDirOf (filePath : String) : Bool :=
  (pathParts filePath).any fun part =>
    match part.data with
    | [c1, c2] => ((c1 = 'V') ∨ (c1 = 'v')) ∧ ('2' ≤ c2 ∧ c2 ≤ '9')
    | _ => false

/-- The note text marking a wrapper-fallback schema. -/
def wrapperNoteMark : String := "Wrapper file: VersionedNodeType"

/-- Is the schema a wrapper fallback, i.e. does some extraction note
contain the VersionedNodeType wrapper mark (the check of
calculateVersionPriority)? -/
def isWrapperFallback (schema : ExtractedNodeSchema) : Bool :=
  schema.extractionNotes.any fun note => strContains note wrapperNoteMark

/-- Quality bonus of the priority score. -/
def qualityBonus : Quality → Int
  | .high => 50
  | .medium => 25
  | .low => 0

/-- calculateVersionPriority of the source, computed sequentially the
way the code mutates its local priority variable. -/
def calculateVersionPriority (filePath : String)
    (schema : ExtractedNodeSchema) : Int :=
  let p0 : Int := 0
  let p1 := if isWrapperFallback schema then p0 - 100 else p0
  let v := versionNumOf filePath
  let p2 := if v > 0 then p1 + (v : Int) * 50 else p1 + 25
  let p3 := p2 + (schema.parameters.length : Int) * 5
  let p4 := p3 + qualityBonus schema.extractionQuality
  if hasVersionedDirOf filePath then p4 + 30 else p4

/-- The spec's score formula as a pure function of the five scoring
inputs (is-wrapper-fallback, explicit-version-number-or-absence,
parameter-count, quality-tier, is-in-versioned-directory). -/
def specPriorityFormula (isWrapperFB : Bool) (explicitVersion : Option Nat)
    (paramCount : Nat) (q : Quality) (inVersionedDir : Bool) : Int :=
  (if isWrapperFB then -100 else 0)
    + (match explicitVersion with
       | some v => (v : Int) * 50
       | none => 25)
    + (paramCount : Int) * 5
    + qualityBonus q
    + (if inVersionedDir then 30 else 0)

/-- The claim's literal reading of the explicit version number: it is
found whenever the file-name or directory-name regex matched at all
(the value being the larger of the two matches). -/
def explicitVersionFound? (filePath : String) : Option Nat :=
  match fileVersionMatch (fileNameOf filePath),
        dirVersionMatch (dirNameOf filePath) with
  | none, none => none
  | a, b => some (max (a.getD 0) (b.getD 0))

/-- The version condition the code actually uses: a version number is
used only when the combined extracted number is positive. -/
def positiveVersionFound? (filePath : String) : Option Nat :=
  if versionNumOf filePath > 0 then some (versionNumOf filePath) else none

/-- The sequentially-computed priority equals the sum of its five
independent terms. -/
theorem calculateVersionPriority_decomp (fp : String)
    (s : ExtractedNodeSchema) :
    calculateVersionPriority fp s =
      (if isWrapperFallback s then -100 else 0)
        + (if versionNumOf fp > 0 then (versionNumOf fp : Int) * 50 else 25)
        + (s.parameters.length : Int) * 5
        + qualityBonus s.extractionQuality
        + (if hasVersionedDirOf fp then 30 else 0) := by
  unfold calculateVersionPriority
  cases h1 : isWrapperFallback s <;> cases h2 : hasVersionedDirOf fp <;>
    by_cases h3 : versionNumOf fp > 0 <;> simp [h1, h2, h3]

/-- Candidate data of the counterexample to the claimed score formula: a
plain schema extracted from a file whose name carries the explicit
version number 0. -/
def cexC1Schema : ExtractedNodeSchema :=
  { displayName := .str "Foo", name := .str "foo" }

/-- Path of the counterexample candidate for the score formula. -/
def cexC1Path : String := "packages/nodes-base/nodes/Foo/FooV0.node.ts"

/-- C1 counterexample: for the candidate file FooV0.node.ts a version
number (namely 0) is found in the file name, so the claimed formula
contributes 0 x 50 = 0, but the code only uses a version term when the
extracted number is positive and instead adds the no-version default 25;
the computed priority differs from the claimed formula at this input. -/
theorem calculateVersionPriority_ne_claimFormula :
    calculateVersionPriority cexC1Path cexC1Schema ≠
      specPriorityFormula (isWrapperFallback cexC1Schema)
        (explicitVersionFound? cexC1Path)
        cexC1Schema.parameters.length
        cexC1Schema.extractionQuality
        (hasVersionedDirOf cexC1Path) := by
  decide

/-- C1 (amended): for every candidate file and extracted schema, the
priority score equals exactly (-100 if the candidate is a wrapper
fallback, else 0) + (explicit version number x 50 if a positive version
number is found in the file or directory name, else 25) + (number of
parameters x 5) + (50 if quality is high, 25 if medium, 0 if low) +
(30 if some path segment is a versioned directory v2..v9, else 0),
i.e. the score is the claimed pure function of the five scoring
inputs, with the version term keyed to a positive found version. -/
theorem calculateVersionPriority_eq_specFormula (filePath : String)
    (schema : ExtractedNodeSchema) :
    calculateVersionPriority filePath schema =
      specPriorityFormula (isWrapperFallback schema)
        (positiveVersionFound? filePath)
        schema.parameters.length
        schema.extractionQuality
        (hasVersionedDirOf filePath) := by
  rw [calculateVersionPriority_decomp]
  unfold specPriorityFormula positiveVersionFound?
  by_cases h : versionNumOf filePath > 0 <;> simp [h]

/-! ### Version selection (selectBestVersion).

The source sorts the candidate array with the comparator
(a, b) => b.priority - a.priority and returns element 0.
Array.prototype.sort is stable, and a stable sort by a total comparator
is a unique function of the input list, so selectBestVersion is modelled
as the head of a stable descending insertion sort. -/

/-- A scored candidate implementation of a version group
(schema, filePath, priority). -/
structure VersionCandidate where
  schema : ExtractedNodeSchema
  filePath : String
  priority : Int

/-- Stable descending insertion of a candidate: it is placed before the
first element whose priority does not exceed it, so earlier elements of
equal priority stay in front. -/
def insertByPriority (c : VersionCandidate) :
    List VersionCandidate → List VersionCandidate
  | [] => [c]
  | x :: xs =>
      if x.priority ≤ c.priority then c :: x :: xs
      else x :: insertByPriority c xs

/-- Stable sort of candidates by descending priority (the behaviour of
the source's Array.prototype.sort call). -/
def sortByPriorityDesc : List VersionCandidate → List VersionCandidate
  | [] => []
  | x :: xs => insertByPriority x (sortByPriorityDesc xs)

theorem mem_insertByPriority {x c : VersionCandidate}
    {l : List VersionCandidate} :
    x ∈ insertByPriority c l ↔ x = c ∨ x ∈ l := by
  induction l with
  | nil => simp [insertByPriority]
  | cons y ys ih =>
    rw [insertByPriority]
    by_cases hy : y.priority ≤ c.priority
    · rw [if_pos hy]
      simp [List.mem_cons]
    · rw [if_neg hy]
      simp only [List.mem_cons, ih]
      tauto

theorem perm_insertByPriority (c : VersionCandidate)
    (l : List VersionCandidate) :
    (insertByPriority c l).Perm (c :: l) := by
  induction l with
  | nil => exact List.Perm.refl _
  | cons y ys ih =>
    rw [insertByPriority]
    by_cases hy : y.priority ≤ c.priority
    · rw [if_pos hy]
    · rw [if_neg hy]
      exact (List.Perm.cons y ih).trans (List.Perm.swap c y ys)

theorem perm_sortByPriorityDesc (l : List VersionCandidate) :
    (sortByPriorityDesc l).Perm l := by
  induction l with
  | nil => exact List.Perm.refl _
  | cons x xs ih =>
    exact (perm_insertByPriority x (sortByPriorityDesc xs)).trans
      (List.Perm.cons x ih)

theorem pairwise_insertByPriority {c : VersionCandidate}
    {l : List VersionCandidate}
    (hl : l.Pairwise (fun a b => b.priority ≤ a.priority)) :
    (insertByPriority c l).Pairwise (fun a b => b.priority ≤ a.priority) := by
  induction l with
  | nil => simp [insertByPriority]
  | cons x xs ih =>
    rw [insertByPriority]
    by_cases hx : x.priority ≤ c.priority
    · rw [if_pos hx]
      refine List.Pairwise.cons ?_ hl
      intro b hb
      rcases List.mem_cons.mp hb with rfl | hb'
      · exact hx
      · exact le_trans (List.rel_of_pairwise_cons hl hb') hx
    · rw [if_neg hx]
      refine List.Pairwise.cons ?_ (ih hl.of_cons)
      intro b hb
      rcases mem_insertByPriority.mp hb with rfl | hb'
      · exact le_of_not_le hx
      · exact List.rel_of_pairwise_cons hl hb'

theorem pairwise_sortByPriorityDesc (l : List VersionCandidate) :
    (sortByPriorityDesc l).Pairwise (fun a b => b.priority ≤ a.priority) := by
  induction l with
  | nil => simp [sortByPriorityDesc]
  | cons x xs ih => exact pairwise_insertByPriority ih

theorem sortByPriorityDesc_ne_nil {l : List VersionCandidate}
    (h : l ≠ []) : sortByPriorityDesc l ≠ [] := by
  intro hs
  have hp := perm_sortByPriorityDesc l
  rw [hs] at hp
  exact h hp.symm.eq_nil

/-- selectBestVersion of the source: sort descending by priority (stable)
and take the first element. -/
def selectBestVersion (l : List VersionCandidate) (h : l ≠ []) :
    VersionCandidate :=
  (sortByPriorityDesc l).head (sortByPriorityDesc_ne_nil h)

theorem le_head_of_sort_eq_cons {l : List VersionCandidate}
    {b : VersionCandidate} {t : List VersionCandidate}
    (h : sortByPriorityDesc l = b :: t) :
    ∀ c ∈ l, c.priority ≤ b.priority := by
  intro c hc
  have hmem : c ∈ sortByPriorityDesc l :=
    ((perm_sortByPriorityDesc l).mem_iff).mpr hc
  rw [h] at hmem
  rcases List.mem_cons.mp hmem with rfl | ht
  · exact le_refl _
  · have hp := pairwise_sortByPriorityDesc l
    rw [h] at hp
    exact List.rel_of_pairwise_cons hp ht

theorem selectBestVersion_mem (l : List VersionCandidate) (h : l ≠ []) :
    selectBestVersion l h ∈ l := by
  have hmem : (sortByPriorityDesc l).head (sortByPriorityDesc_ne_nil h)
      ∈ sortByPriorityDesc l := List.head_mem _
  exact ((perm_sortByPriorityDesc l).mem_iff).mp hmem

theorem le_selectBestVersion (l : List VersionCandidate) (h : l ≠ [])
    {c : VersionCandidate} (hc : c ∈ l) :
    c.priority ≤ (selectBestVersion l h).priority := by
  obtain ⟨b, t, hs⟩ :=
    List.exists_cons_of_ne_nil (sortByPriorityDesc_ne_nil h)
  have : selectBestVersion l h = b := by
    simp [selectBestVersion, hs]
  rw [this]
  exact le_head_of_sort_eq_cons hs c hc

/-- Head of the sorted cons: the new element wins exactly when it is at
least as large as everything after it (this is the stability fact). -/
theorem head?_sort_cons (x : VersionCandidate) (xs : List VersionCandidate) :
    (sortByPriorityDesc (x :: xs)).head? =
      if xs.all (fun c => decide (c.priority ≤ x.priority)) then some x
      else (sortByPriorityDesc xs).head? := by
  rw [sortByPriorityDesc]
  cases hsx : sortByPriorityDesc xs with
  | nil =>
    have hxs : xs = [] := by
      have hp := perm_sortByPriorityDesc xs
      rw [hsx] at hp
      exact hp.symm.eq_nil
    subst hxs
    simp [insertByPriority]
  | cons m rest =>
    have hmmax : ∀ c ∈ xs, c.priority ≤ m.priority :=
      le_head_of_sort_eq_cons hsx
    have hmmem : m ∈ xs := by
      have : m ∈ sortByPriorityDesc xs := by rw [hsx]; exact List.mem_cons_self _ _
      exact ((perm_sortByPriorityDesc xs).mem_iff).mp this
    rw [insertByPriority]
    by_cases hmx : m.priority ≤ x.priority
    · rw [if_pos hmx]
      have hall : xs.all (fun c => decide (c.priority ≤ x.priority)) = true := by
        rw [List.all_eq_true]
        intro c hc
        exact decide_eq_true (le_trans (hmmax c hc) hmx)
      simp [hall]
    · rw [if_neg hmx]
      have hall : xs.all (fun c => decide (c.priority ≤ x.priority)) = false := by
        cases h2 : xs.all (fun c => decide (c.priority ≤ x.priority)) with
        | false => rfl
        | true =>
          exact absurd (by simpa using List.all_eq_true.mp h2 m hmmem) hmx
      simp [hall]

theorem find?_congr_mem {α : Type _} {p q : α → Bool} :
    ∀ {l : List α}, (∀ a ∈ l, p a = q a) → l.find? p = l.find? q := by
  intro l
  induction l with
  | nil => intro _; rfl
  | cons x xs ih =>
    intro h
    have hx := h x (List.mem_cons_self _ _)
    rw [List.find?_cons, List.find?_cons, hx]
    cases q x with
    | true => rfl
    | false => exact ih fun a ha => h a (List.mem_cons_of_mem _ ha)

/-- The head of the stable descending sort is the first-seen candidate of
maximal priority. -/
theorem find?_max_eq_head?_sort :
    ∀ l : List VersionCandidate,
      l.find? (fun c => l.all fun d => decide (d.priority ≤ c.priority)) =
        (sortByPriorityDesc l).head? := by
  intro l
  induction l with
  | nil => rfl
  | cons x xs ih =>
    rw [List.find?_cons]
    by_cases hall : xs.all (fun c => decide (c.priority ≤ x.priority)) = true
    · have hpx : ((x :: xs).all fun d => decide (d.priority ≤ x.priority)) = true := by
        rw [List.all_cons, hall]
        simp
      rw [hpx, head?_sort_cons, if_pos hall]
    · have hex : ∃ c ∈ xs, x.priority < c.priority := by
        by_contra hno
        push_neg at hno
        apply hall
        rw [List.all_eq_true]
        intro c hc
        exact decide_eq_true (hno c hc)
      have hpx : ((x :: xs).all fun d => decide (d.priority ≤ x.priority)) = false := by
        rw [List.all_cons]
        cases h2 : xs.all (fun d => decide (d.priority ≤ x.priority)) with
        | true => exact absurd h2 hall
        | false => simp
      rw [hpx]
      have hcongr :
          xs.find? (fun c => (x :: xs).all fun d => decide (d.priority ≤ c.priority)) =
            xs.find? (fun c => xs.all fun d => decide (d.priority ≤ c.priority)) := by
        apply find?_congr_mem
        intro a ha
        rw [List.all_cons]
        cases hq : xs.all (fun d => decide (d.priority ≤ a.priority)) with
        | true =>
          obtain ⟨c, hc, hcp⟩ := hex
          have hca : c.priority ≤ a.priority := by
            have := List.all_eq_true.mp hq c hc
            simpa using this
          have : x.priority ≤ a.priority := le_of_lt (lt_of_lt_of_le hcp hca)
          simp [this]
        | false => simp
      rw [hcongr, ih, head?_sort_cons, if_neg hall]

/-- C2: for every non-empty list of scored candidates, the candidate
returned by selectBestVersion has a priority at least every candidate's
priority; a candidate that strictly dominates every other candidate is
selected from any permutation of the list (order-independence of strict
maxima); and in general the selected candidate is the first-seen
candidate of maximal priority, so exact ties go to the first-seen one. -/
theorem selectBestVersion_correct (l : List VersionCandidate) (h : l ≠ []) :
    (∀ c ∈ l, c.priority ≤ (selectBestVersion l h).priority)
    ∧ (∀ w ∈ l, (∀ c ∈ l, c = w ∨ c.priority < w.priority) →
        ∀ (l' : List VersionCandidate) (h' : l' ≠ []),
          l.Perm l' → selectBestVersion l' h' = w)
    ∧ l.find? (fun c => l.all fun d => decide (d.priority ≤ c.priority))
        = some (selectBestVersion l h) := by
  refine ⟨fun c hc => le_selectBestVersion l h hc, ?_, ?_⟩
  · intro w hw hstrict l' h' hperm
    have hbmem : selectBestVersion l' h' ∈ l :=
      hperm.symm.subset (selectBestVersion_mem l' h')
    have hwle : w.priority ≤ (selectBestVersion l' h').priority :=
      le_selectBestVersion l' h' (hperm.subset hw)
    rcases hstrict _ hbmem with heq | hlt
    · exact heq
    · exact absurd (lt_of_le_of_lt hwle hlt) (lt_irrefl _)
  · rw [find?_max_eq_head?_sort l]
    obtain ⟨b, t, hs⟩ :=
      List.exists_cons_of_ne_nil (sortByPriorityDesc_ne_nil h)
    simp [selectBestVersion, hs]

/-- A minimal schema for demonstration candidates. -/
def demoSchema : ExtractedNodeSchema :=
  { displayName := .str "Demo", name := .str "demo" }

/-- First demonstration candidate (priority 5). -/
def demoCandA : VersionCandidate :=
  { schema := demoSchema, filePath := "a/Demo.node.ts", priority := 5 }

/-- Second demonstration candidate (priority 7). -/
def demoCandB : VersionCandidate :=
  { schema := demoSchema, filePath := "a/DemoV2.node.ts", priority := 7 }

/-- Demonstration candidate list. -/
def demoCandList : List VersionCandidate := [demoCandA, demoCandB]

theorem demoCandList_ne_nil : demoCandList ≠ [] := by
  simp [demoCandList]

/-- Witness for C2: on the concrete two-candidate list, the first
candidate's priority is bounded by the selected candidate's priority. -/
theorem selectBestVersion_correct_witness :
    demoCandList ≠ [] ∧
      demoCandA.priority ≤
        (selectBestVersion demoCandList demoCandList_ne_nil).priority :=
  ⟨demoCandList_ne_nil,
    (selectBestVersion_correct demoCandList demoCandList_ne_nil).1 demoCandA
      (by simp [demoCandList])⟩

/-! ### Quality classification (determineExtractionQuality). -/

/-- determineExtractionQuality of the source. The three local booleans
(paramCount, hasTypes, hasDescriptions) are inlined; the JS comparison
count > paramCount / 2 over real division agrees with the Nat floor
division comparison used here because count is an integer. -/
def determineExtractionQuality (parameters : List ExtractedParameterSchema)
    (_extractionNotes : List String) : Quality :=
  if 5 ≤ parameters.length ∧ (parameters.all fun p => jsTruthy p.type)
      ∧ parameters.length / 2 <
          (parameters.filter fun p => jsTruthyOpt p.description).length then
    .high
  else if 2 ≤ parameters.length
      ∧ (parameters.all fun p => jsTruthy p.type) then
    .medium
  else
    .low

/-- C4: the classifier returns high iff the list has at least 5
parameters, every parameter has a (JS-truthy, i.e. non-empty) type tag
and strictly more than half of the parameters have a truthy description;
otherwise medium iff the list has at least 2 parameters and every
parameter has a type tag; otherwise low. -/
theorem determineExtractionQuality_spec
    (ps : List ExtractedParameterSchema) (notes : List String) :
    (determineExtractionQuality ps notes = .high ↔
      (5 ≤ ps.length ∧ (∀ p ∈ ps, jsTruthy p.type = true) ∧
        ps.length < 2 * ps.countP (fun p => jsTruthyOpt p.description)))
    ∧ (determineExtractionQuality ps notes = .medium ↔
      (¬(5 ≤ ps.length ∧ (∀ p ∈ ps, jsTruthy p.type = true) ∧
          ps.length < 2 * ps.countP (fun p => jsTruthyOpt p.description)) ∧
        (2 ≤ ps.length ∧ ∀ p ∈ ps, jsTruthy p.type = true)))
    ∧ (determineExtractionQuality ps notes = .low ↔
      (¬(5 ≤ ps.length ∧ (∀ p ∈ ps, jsTruthy p.type = true) ∧
          ps.length < 2 * ps.countP (fun p => jsTruthyOpt p.description)) ∧
        ¬(2 ≤ ps.length ∧ ∀ p ∈ ps, jsTruthy p.type = true))) := by
  have hdesc :
      (ps.length / 2 < (ps.filter fun p => jsTruthyOpt p.description).length)
        ↔ ps.length < 2 * ps.countP (fun p => jsTruthyOpt p.description) := by
    rw [List.countP_eq_length_filter]
    omega
  have hiff1 :
      (5 ≤ ps.length ∧ ((ps.all fun p => jsTruthy p.type) = true)
        ∧ ps.length / 2 <
            (ps.filter fun p => jsTruthyOpt p.description).length)
      ↔ (5 ≤ ps.length ∧ (∀ p ∈ ps, jsTruthy p.type = true) ∧
          ps.length < 2 * ps.countP (fun p => jsTruthyOpt p.description)) :=
    and_congr Iff.rfl (and_congr List.all_eq_true hdesc)
  have hiff2 :
      (2 ≤ ps.length ∧ ((ps.all fun p => jsTruthy p.type) = true))
      ↔ (2 ≤ ps.length ∧ ∀ p ∈ ps, jsTruthy p.type = true) :=
    and_congr Iff.rfl List.all_eq_true
  rw [← hiff1, ← hiff2]
  unfold determineExtractionQuality
  split_ifs with h1 h2
  · exact ⟨iff_of_true rfl h1,
      iff_of_false (by decide) (fun h => h.1 h1),
      iff_of_false (by decide) (fun h => h.1 h1)⟩
  · exact ⟨iff_of_false (by decide) h1,
      iff_of_true rfl ⟨h1, h2⟩,
      iff_of_false (by decide) (fun h => h.2 h2)⟩
  · exact ⟨iff_of_false (by decide) h1,
      iff_of_false (by decide) (fun h => h2 h.2),
      iff_of_true rfl ⟨h1, h2⟩⟩

/-! ### C3: the wrapper penalty. -/

/-- A minimal well-formed parameter (name and type present and truthy,
no description). -/
def demoParam : ExtractedParameterSchema :=
  { name := .str "field", displayName := .str "Field", type := .str "string" }

/-- Parameter list of the counterexample wrapper candidate: 50 typed
parameters without descriptions (classifier tier: medium). -/
def cexC3WrapParams : List ExtractedParameterSchema :=
  List.replicate 50 demoParam

/-- Schema of the counterexample wrapper-fallback candidate. -/
def cexC3WrapSchema : ExtractedNodeSchema :=
  { displayName := .str "Wrap", name := .str "wrap",
    parameters := cexC3WrapParams,
    extractionQuality := .medium,
    extractionNotes :=
      ["Wrapper file: VersionedNodeType with defaultVersion 2"] }

/-- Schema of the counterexample non-wrapper candidate: two typed
parameters (classifier tier: medium). -/
def cexC3PlainSchema : ExtractedNodeSchema :=
  { displayName := .str "Plain", name := .str "plain",
    parameters := [demoParam, demoParam],
    extractionQuality := .medium }

/-- Path of the counterexample wrapper candidate (no version marks). -/
def cexC3WrapPath : String := "packages/nodes-base/nodes/Wrap/Wrap.node.ts"

/-- Path of the counterexample non-wrapper candidate. -/
def cexC3PlainPath : String := "packages/nodes-base/nodes/Wrap/Plain.node.ts"

/-- C3 counterexample: a wrapper-fallback candidate with 50 parameters
(medium quality, no version number, quality consistent with the
classifier) scores 200, strictly above the 60 of a non-wrapper candidate
with 2 parameters and medium quality, so the wrapper penalty does not
make wrappers lose for every parameter count. -/
theorem wrapper_priority_counterexample :
    isWrapperFallback cexC3WrapSchema = true
    ∧ isWrapperFallback cexC3PlainSchema = false
    ∧ 1 ≤ cexC3PlainSchema.parameters.length
    ∧ cexC3PlainSchema.extractionQuality = .medium
    ∧ versionNumOf cexC3WrapPath < 10
    ∧ versionNumOf cexC3PlainPath < 10
    ∧ determineExtractionQuality cexC3WrapSchema.parameters []
        = cexC3WrapSchema.extractionQuality
    ∧ determineExtractionQuality cexC3PlainSchema.parameters []
        = cexC3PlainSchema.extractionQuality
    ∧ ¬(calculateVersionPriority cexC3WrapPath cexC3WrapSchema <
          calculateVersionPriority cexC3PlainPath cexC3PlainSchema) := by
  decide

/-- C3 (amended): a wrapper-fallback candidate scores strictly below a
non-wrapper candidate with at least one parameter and medium or high
quality, both with version numbers below 10, whenever the non-wrapper
candidate also matches or exceeds the wrapper on each remaining scoring
component (version term, parameter count, quality bonus and
versioned-directory bonus); the -100 penalty then decides strictly. -/
theorem wrapper_priority_lt (fpW fpN : String)
    (sW sN : ExtractedNodeSchema)
    (hw : isWrapperFallback sW = true)
    (hn : isWrapperFallback sN = false)
    (_hp1 : 1 ≤ sN.parameters.length)
    (_hq1 : sN.extractionQuality = .medium ∨ sN.extractionQuality = .high)
    (_hvW : versionNumOf fpW < 10) (_hvN : versionNumOf fpN < 10)
    (hv : (if versionNumOf fpW > 0 then (versionNumOf fpW : Int) * 50 else 25)
        ≤ (if versionNumOf fpN > 0 then (versionNumOf fpN : Int) * 50 else 25))
    (hp : sW.parameters.length ≤ sN.parameters.length)
    (hq : qualityBonus sW.extractionQuality
        ≤ qualityBonus sN.extractionQuality)
    (hd : (if hasVersionedDirOf fpW then (30 : Int) else 0)
        ≤ (if hasVersionedDirOf fpN then (30 : Int) else 0)) :
    calculateVersionPriority fpW sW < calculateVersionPriority fpN sN := by
  rw [calculateVersionPriority_decomp, calculateVersionPriority_decomp]
  have hpz : (sW.parameters.length : Int) ≤ (sN.parameters.length : Int) := by
    exact_mod_cast hp
  simp only [hw, hn, if_true, if_false]
  norm_num
  set A := (if versionNumOf fpW > 0 then (versionNumOf fpW : Int) * 50 else 25)
  set B := (if versionNumOf fpN > 0 then (versionNumOf fpN : Int) * 50 else 25)
  set C := (if hasVersionedDirOf fpW then (30 : Int) else 0)
  set D := (if hasVersionedDirOf fpN then (30 : Int) else 0)
  omega

/-- Witness for the amended C3 theorem at a concrete pair of candidates:
the wrapper schema of the counterexample against itself stripped of the
wrapper note would be degenerate, so instead the two-parameter plain
candidate dominates a one-parameter wrapper candidate componentwise. -/
def demoWrapSmallSchema : ExtractedNodeSchema :=
  { displayName := .str "Wrap", name := .str "wrap",
    parameters := [demoParam],
    extractionQuality := .low,
    extractionNotes :=
      ["Wrapper file: VersionedNodeType with defaultVersion 2"] }

/-- Witness for C3 (amended): the one-parameter wrapper candidate scores
strictly below the two-parameter medium non-wrapper candidate. -/
theorem wrapper_priority_lt_witness :
    calculateVersionPriority cexC3WrapPath demoWrapSmallSchema <
      calculateVersionPriority cexC3PlainPath cexC3PlainSchema := by
  exact wrapper_priority_lt cexC3WrapPath cexC3PlainPath
    demoWrapSmallSchema cexC3PlainSchema
    (by decide) (by decide) (by decide) (by decide) (by decide) (by decide)
    (by decide) (by decide) (by decide) (by decide)

/-! ### Mini TypeScript AST.

The extractor walks a parsed source file looking only for a handful of
node shapes: variable statements (with declaration name, export
modifier and initializer), object-literal property assignments with
identifier names, array literals and plain literals. Everything else is
an opaque node whose children the visitor still traverses; otherExpr
and otherStmt model such nodes. -/

/-- Expression node of the mini AST. -/
inductive Expr where
  | strLit (s : String)
  | numLit (n : Int)
  | boolLit (b : Bool)
  | arrLit (elems : List Expr)
  | objLit (props : List (Option String × Expr))
  | otherExpr (children : List Expr)

/-- Statement node of the mini AST. -/
inductive Stmt where
  | varStmt (exported : Bool) (decls : List (String × Option Expr))
  | exprStmt (e : Expr)
  | otherStmt (children : List Expr)

mutual

/-- extractValueFromNode of the source: interpret a literal expression
as a runtime value; undefined (none) for anything non-literal, and for
object literals that produce no fields. -/
def extractValueFromNode : Expr → Option Value
  | .strLit s => some (.str s)
  | .numLit n => some (.num n)
  | .boolLit b => some (.bool b)
  | .arrLit es => some (.arr (extractValueList es))
  | .objLit ps =>
      let fields := extractValueFields [] ps
      if fields.isEmpty then none else some (.obj fields)
  | .otherExpr _ => none

/-- Array elements: map extractValueFromNode and drop undefined. -/
def extractValueList : List Expr → List Value
  | [] => []
  | e :: es =>
      match extractValueFromNode e with
      | some v => v :: extractValueList es
      | none => extractValueList es

/-- Object fields: sequential obj[propName] = value assignments for the
identifier-named members whose value is defined. -/
def extractValueFields (acc : List (String × Value)) :
    List (Option String × Expr) → List (String × Value)
  | [] => acc
  | (name?, e) :: rest =>
      match name? with
      | some n =>
          match extractValueFromNode e with
          | some v => extractValueFields (setKey acc n v) rest
          | none => extractValueFields acc rest
      | none => extractValueFields acc rest

end

/-- extractDescriptionFromObjectLiteral of the source: fold the
identifier-named members with defined values into the description
object. -/
def extractDescriptionFields (props : List (Option String × Expr))
    (d : List (String × Value)) : List (String × Value) :=
  props.foldl
    (fun d pr =>
      match pr.1 with
      | some n =>
          match extractValueFromNode pr.2 with
          | some v => setKey d n v
          | none => d
      | none => d)
    d

mutual

/-- Depth-first collection of the description-object sources found
inside an expression: every object-literal member named description
whose value is an object literal, paired with the note the visitor
records for it. -/
def descSourcesExpr : Expr → List (List (Option String × Expr) × String)
  | .strLit _ => []
  | .numLit _ => []
  | .boolLit _ => []
  | .arrLit es => descSourcesList es
  | .objLit ps => descSourcesProps ps
  | .otherExpr cs => descSourcesList cs

/-- descSourcesExpr over a list of children in order. -/
def descSourcesList : List Expr → List (List (Option String × Expr) × String)
  | [] => []
  | e :: es => descSourcesExpr e ++ descSourcesList es

/-- descSourcesExpr over object members: the member check fires before
the visitor descends into the member's value. -/
def descSourcesProps :
    List (Option String × Expr) → List (List (Option String × Expr) × String)
  | [] => []
  | (name?, e) :: rest =>
      (match name?, e with
       | some "description", .objLit ps =>
           [(ps, "Found description via class property")]
       | _, _ => []) ++ descSourcesExpr e ++ descSourcesProps rest

end

/-- Description sources of one statement: at a variable statement the
visitor first checks every declaration for an object initializer with a
description-like name, then descends into the initializers. -/
def descSourcesStmt : Stmt → List (List (Option String × Expr) × String)
  | .varStmt _ decls =>
      decls.filterMap (fun d =>
        match d.2 with
        | some (.objLit ps) =>
            if strContains d.1 "description" || strContains d.1 "Description" then
              some (ps, "Found description via variable: " ++ d.1)
            else none
        | _ => none)
      ++ decls.flatMap (fun d =>
          match d.2 with
          | some e => descSourcesExpr e
          | none => [])
  | .exprStmt e => descSourcesExpr e
  | .otherStmt cs => descSourcesList cs

/-- All description sources of a file in visit order. -/
def collectDescSources (stmts : List Stmt) :
    List (List (Option String × Expr) × String) :=
  stmts.flatMap descSourcesStmt

/-- Trim of surrounding whitespace. -/
def trimChars (cs : List Char) : List Char :=
  ((cs.dropWhile Char.isWhitespace).reverse.dropWhile Char.isWhitespace).reverse

/-- The camel-case split replace(([a-z])([A-Z]), between). -/
def camelSplit : List Char → List Char
  | [] => []
  | [c] => [c]
  | a :: b :: rest =>
      if a.isLower ∧ b.isUpper then a :: ' ' :: camelSplit (b :: rest)
      else a :: camelSplit (b :: rest)

/-- The replace(v digits $, empty, case-insensitive) step. -/
def stripTrailingVersion (cs : List Char) : List Char :=
  let pr := splitTrailingDigits cs
  if pr.2 ≠ [] ∧ (pr.1.getLast? = some 'v' ∨ pr.1.getLast? = some 'V') then
    pr.1.dropLast
  else cs

/-- formatDisplayName of the source: camel-case split, capitalise the
first character, strip a trailing version suffix, trim. -/
def formatDisplayName (name : String) : String :=
  let step1 := camelSplit name.data
  let step2 :=
    match step1 with
    | [] => []
    | c :: rest => c.toUpper :: rest
  String.mk (trimChars (stripTrailingVersion step2))

/-- findNodeDescription of the source: fold every description source
found in the tree into one description object, then fall back to
inferring a display name from the directory or file name; the result is
undefined only when the description object stays empty. Returns the
description object together with the extraction notes pushed. -/
def findNodeDescription (stmts : List Stmt) (filePath : String) :
    Option (List (String × Value)) × List String :=
  let sources := collectDescSources stmts
  let desc := sources.foldl (fun d pr => extractDescriptionFields pr.1 d) []
  let notes := sources.map (fun pr => pr.2)
  let fileName := fileNameOf filePath
  let dirName := dirNameOf filePath
  let dn :=
    if ¬ jsTruthyOpt (getKey desc "displayName") then
      if dirName ≠ "nodes" ∧ dirName ≠ "base" ∧ ¬ strContains fileName "Test" then
        (setKey (setKey desc "displayName" (.str (formatDisplayName dirName)))
            "name" (.str (lowerStr dirName)),
         notes ++ ["Inferred name from directory: " ++ dirName])
      else if fileName ≠ "index" then
        (setKey (setKey desc "displayName" (.str (formatDisplayName fileName)))
            "name" (.str (lowerStr fileName)),
         notes ++ ["Inferred name from filename: " ++ fileName])
      else (desc, notes)
    else (desc, notes)
  (if dn.1.isEmpty then none else some dn.1, dn.2)

/-- The object-literal elements of an array literal (the non-object
elements are skipped before parsing, as in the source). -/
def objElements : List Expr → List (List (Option String × Expr))
  | [] => []
  | e :: rest =>
      (match e with
       | .objLit ps => [ps]
       | _ => []) ++ objElements rest

mutual

/-- Depth-first collection of the parameter-object sources inside an
expression: elements of every properties: array member. -/
def paramObjSourcesExpr : Expr → List (List (Option String × Expr))
  | .strLit _ => []
  | .numLit _ => []
  | .boolLit _ => []
  | .arrLit es => paramObjSourcesList es
  | .objLit ps => paramObjSourcesProps ps
  | .otherExpr cs => paramObjSourcesList cs

/-- paramObjSourcesExpr over children in order. -/
def paramObjSourcesList : List Expr → List (List (Option String × Expr))
  | [] => []
  | e :: es => paramObjSourcesExpr e ++ paramObjSourcesList es

/-- paramObjSourcesExpr over object members. -/
def paramObjSourcesProps :
    List (Option String × Expr) → List (List (Option String × Expr))
  | [] => []
  | (name?, e) :: rest =>
      (match name?, e with
       | some "properties", .arrLit elems => objElements elems
       | _, _ => []) ++ paramObjSourcesExpr e ++ paramObjSourcesProps rest

end

/-- Parameter-object sources of one statement, including the exported
variable named description with an array initializer. -/
def paramObjSourcesStmt : Stmt → List (List (Option String × Expr))
  | .varStmt exported decls =>
      (if exported then
        decls.flatMap (fun d =>
          if d.1 = "description" then
            match d.2 with
            | some (.arrLit elems) => objElements elems
            | _ => []
          else [])
      else [])
      ++ decls.flatMap (fun d =>
          match d.2 with
          | some e => paramObjSourcesExpr e
          | none => [])
  | .exprStmt e => paramObjSourcesExpr e
  | .otherStmt cs => paramObjSourcesList cs

/-- All parameter-object sources of a file in visit order. -/
def collectParamObjSources (stmts : List Stmt) :
    List (List (Option String × Expr)) :=
  stmts.flatMap paramObjSourcesStmt

/-- parsePropertyObject of the source: interpret the members of one
object literal, and materialise a Parameter exactly when both the name
and the type field are present and truthy. -/
def parsePropertyObject (props : List (Option String × Expr)) :
    Option ExtractedParameterSchema :=
  let m := extractValueFields [] props
  match getKey m "name", getKey m "type" with
  | some nameV, some typeV =>
      if jsTruthy nameV ∧ jsTruthy typeV then
        some
          { name := nameV,
            displayName := jsOrV (getKey m "displayName") nameV,
            type := typeV,
            default := getKey m "default",
            description := getKey m "description",
            required := getKey m "required",
            placeholder := getKey m "placeholder",
            hint := getKey m "hint",
            options := getKey m "options",
            displayOptions := getKey m "displayOptions",
            typeOptions := getKey m "typeOptions",
            routing := getKey m "routing",
            modes := getKey m "modes",
            extractValue := getKey m "extractValue",
            nested := getKey m "nested",
            exampleValue := jsOr (getKey m "exampleValue") (getKey m "default"),
            workflowJsonStructure :=
              { parameterName := some nameV,
                workflowJsonValue :=
                  jsOr (getKey m "exampleValue") (getKey m "default"),
                usage := some ("\"" ++ jsToString nameV ++ "\": " ++
                  jsonStringifyOpt
                    (jsOr (getKey m "exampleValue") (getKey m "default"))),
                type := some typeV,
                required := some (jsOrV (getKey m "required") (.bool false)),
                conditionalContext := none } }
      else none
  | _, _ => none

/-- findDirectProperties of the source: every object element of every
properties array (and of every exported description array binding),
parsed through parsePropertyObject, in visit order. -/
def findDirectProperties (stmts : List Stmt) :
    List ExtractedParameterSchema :=
  (collectParamObjSources stmts).filterMap parsePropertyObject

/-! ### Conditional parameter expansion (expandConditionalParameters). -/

/-- The derived parameter the expander synthesises for one
(condition key, accepted value) pair of an original parameter: a spread
copy with suffixed name, annotated label, and a workflowJsonStructure
that keeps the original parameter name and records the conditional
context. -/
def mkConditionalParam (param : ExtractedParameterSchema)
    (conditionKey : String) (value : Value) : ExtractedParameterSchema :=
  { param with
    name := .str (jsToString param.name ++ "_when_" ++ conditionKey ++ "_"
      ++ jsToString value),
    displayName := .str (jsToString param.displayName ++ " (when "
      ++ conditionKey ++ "=" ++ jsToString value ++ ")"),
    exampleValue := param.exampleValue,
    workflowJsonStructure :=
      { param.workflowJsonStructure with
        parameterName := some param.name,
        conditionalContext := some
          { condition := conditionKey, value := value,
            description := "Only visible when " ++ conditionKey
              ++ " is set to " ++ jsToString value } } }

/-- expandConditionalParameters of the source: start from a copy of the
input list and, for every original parameter with a truthy
displayOptions.show, for every entry of it whose value is an array, push
one derived parameter per accepted value; a note records the count when
positive. -/
def expandConditionalParameters (parameters : List ExtractedParameterSchema)
    (extractionNotes : List String) :
    List ExtractedParameterSchema × List String :=
  let step : List ExtractedParameterSchema × Nat →
      ExtractedParameterSchema → List ExtractedParameterSchema × Nat :=
    fun acc param =>
      match jsGetOpt param.displayOptions "show" with
      | some showV =>
          if jsTruthy showV then
            (jsEntries showV).foldl
              (fun acc2 kv =>
                match kv.2 with
                | .arr vs =>
                    vs.foldl
                      (fun acc3 v =>
                        (acc3.1 ++ [mkConditionalParam param kv.1 v],
                         acc3.2 + 1))
                      acc2
                | _ => acc2)
              acc
          else acc
      | none => acc
  let r := parameters.foldl step (parameters, 0)
  (r.1,
   if r.2 > 0 then
     extractionNotes ++ ["Expanded " ++ toString r.2
       ++ " conditional parameters from displayOptions.show"]
   else extractionNotes)

/-- The (condition key, accepted value) pairs of a parameter's
displayOptions.show mapping whose accepted values are given as a list
(the spec-side description of what gets expanded). -/
def showArrayPairs (p : ExtractedParameterSchema) : List (String × Value) :=
  match jsGetOpt p.displayOptions "show" with
  | some showV =>
      if jsTruthy showV then
        (jsEntries showV).flatMap (fun kv =>
          match kv.2 with
          | .arr vs => vs.map (fun v => (kv.1, v))
          | _ => [])
      else []
  | none => []

theorem expand_foldl_values (param : ExtractedParameterSchema) (k : String) :
    ∀ (vs : List Value) (acc : List ExtractedParameterSchema × Nat),
      vs.foldl
        (fun acc3 v => (acc3.1 ++ [mkConditionalParam param k v], acc3.2 + 1))
        acc
      = (acc.1 ++ vs.map (fun v => mkConditionalParam param k v),
         acc.2 + vs.length) := by
  intro vs
  induction vs with
  | nil => intro acc; simp
  | cons v rest ih =>
    intro acc
    rw [List.foldl_cons, ih]
    refine Prod.ext ?_ ?_
    · simp
    · simp
      omega

theorem expand_foldl_entries (param : ExtractedParameterSchema) :
    ∀ (entries : List (String × Value))
      (acc : List ExtractedParameterSchema × Nat),
      entries.foldl
        (fun acc2 kv =>
          match kv.2 with
          | .arr vs =>
              vs.foldl
                (fun acc3 v =>
                  (acc3.1 ++ [mkConditionalParam param kv.1 v], acc3.2 + 1))
                acc2
          | _ => acc2)
        acc
      = (acc.1 ++
          (entries.flatMap (fun kv =>
            match kv.2 with
            | .arr vs => vs.map (fun v => (kv.1, v))
            | _ => [])).map (fun kv => mkConditionalParam param kv.1 kv.2),
         acc.2 +
          (entries.flatMap (fun kv =>
            match kv.2 with
            | .arr vs => vs.map (fun v => (kv.1, v))
            | _ => [])).length) := by
  intro entries
  induction entries with
  | nil => intro acc; simp
  | cons kv rest ih =>
    intro acc
    rw [List.foldl_cons]
    cases hv : kv.2 with
    | arr vs =>
      dsimp only
      rw [expand_foldl_values, ih]
      refine Prod.ext ?_ ?_
      · simp only [List.flatMap_cons, hv, List.map_map, List.map_append,
          List.append_assoc]
        rfl
      · simp [List.flatMap_cons, hv]
        omega
    | str s =>
      dsimp only
      rw [ih]
      simp [List.flatMap_cons, hv]
    | num n =>
      dsimp only
      rw [ih]
      simp [List.flatMap_cons, hv]
    | bool b =>
      dsimp only
      rw [ih]
      simp [List.flatMap_cons, hv]
    | obj fs =>
      dsimp only
      rw [ih]
      simp [List.flatMap_cons, hv]

theorem expand_step (param : ExtractedParameterSchema)
    (acc : List ExtractedParameterSchema × Nat) :
    (match jsGetOpt param.displayOptions "show" with
     | some showV =>
         if jsTruthy showV then
           (jsEntries showV).foldl
             (fun acc2 kv =>
               match kv.2 with
               | .arr vs =>
                   vs.foldl
                     (fun acc3 v =>
                       (acc3.1 ++ [mkConditionalParam param kv.1 v],
                        acc3.2 + 1))
                     acc2
               | _ => acc2)
             acc
         else acc
     | none => acc)
    = (acc.1 ++ (showArrayPairs param).map
        (fun kv => mkConditionalParam param kv.1 kv.2),
       acc.2 + (showArrayPairs param).length) := by
  unfold showArrayPairs
  cases hs : jsGetOpt param.displayOptions "show" with
  | none => simp
  | some showV =>
    by_cases ht : jsTruthy showV
    · simp only [ht, if_true]
      rw [expand_foldl_entries]
    · simp [ht]

theorem expand_outer (ps : List ExtractedParameterSchema) :
    ∀ acc : List ExtractedParameterSchema × Nat,
      ps.foldl
        (fun acc param =>
          match jsGetOpt param.displayOptions "show" with
          | some showV =>
              if jsTruthy showV then
                (jsEntries showV).foldl
                  (fun acc2 kv =>
                    match kv.2 with
                    | .arr vs =>
                        vs.foldl
                          (fun acc3 v =>
                            (acc3.1 ++ [mkConditionalParam param kv.1 v],
                             acc3.2 + 1))
                          acc2
                    | _ => acc2)
                  acc
              else acc
          | none => acc)
        acc
      = (acc.1 ++ ps.flatMap (fun param => (showArrayPairs param).map
          (fun kv => mkConditionalParam param kv.1 kv.2)),
         acc.2 + (ps.flatMap (fun param => (showArrayPairs param).map
          (fun kv => mkConditionalParam param kv.1 kv.2))).length) := by
  induction ps with
  | nil => intro acc; simp
  | cons p rest ih =>
    intro acc
    rw [List.foldl_cons, expand_step, ih]
    refine Prod.ext ?_ ?_
    · simp [List.flatMap_cons, List.append_assoc]
    · simp [List.flatMap_cons]
      omega

/-- The scenario-D parameter: displayOptions.show maps operation to the
accepted values insert and update. -/
def opParamDemo : ExtractedParameterSchema :=
  { name := .str "columns", displayName := .str "Columns",
    type := .str "string",
    displayOptions := some (.obj
      [("show", .obj [("operation", .arr [.str "insert", .str "update"])])]) }

/-- C5: conditional expansion returns the original parameters unchanged
and in order, followed by exactly one derived parameter per
(condition key, accepted value) pair of each original parameter's
displayOptions.show mapping whose accepted values are a list; every
derived parameter's workflowJsonStructure.parameterName is the original
parameter's name; and the parameter with show operation insert/update
expands into exactly those 2 derived parameters. -/
theorem expandConditionalParameters_spec :
    (∀ (ps : List ExtractedParameterSchema) (notes : List String),
      (expandConditionalParameters ps notes).1 =
        ps ++ ps.flatMap (fun p => (showArrayPairs p).map
          (fun kv => mkConditionalParam p kv.1 kv.2)))
    ∧ (∀ (p : ExtractedParameterSchema) (k : String) (v : Value),
        (mkConditionalParam p k v).workflowJsonStructure.parameterName
          = some p.name)
    ∧ (expandConditionalParameters [opParamDemo] []).1 =
        [opParamDemo,
         mkConditionalParam opParamDemo "operation" (.str "insert"),
         mkConditionalParam opParamDemo "operation" (.str "update")] := by
  refine ⟨?_, ?_, ?_⟩
  · intro ps notes
    unfold expandConditionalParameters
    dsimp only
    rw [expand_outer]
  · intro p k v
    rfl
  · rfl

/-! ### Run database and the per-file / per-group pipeline.

parseNodeFile of the source reads and parses a candidate file, resolves
a wrapper redirection and extracts the schema; extractPropertiesAST adds
the expanded parameter count to the running totals as a side effect.
The pieces the claims do not constrain are abstracted on the Candidate
record: the resolver contribution (imported parameters plus the notes it
pushes) is an input, a wrapper whose implementation file was found is
presented as that implementation candidate (the source simply recurses
into it), isWrapper marks the remaining wrapper-fallback case, and
readFails models the try/catch around file reading and parsing. -/

/-- Aggregate statistics of a run. -/
structure ExtractionStats where
  highQuality : Nat := 0
  mediumQuality : Nat := 0
  lowQuality : Nat := 0
  totalParametersExtracted : Nat := 0
  averageParametersPerNode : ℚ := 0

/-- The RunDatabase (NodeSchemaDatabase of the source). The generation
timestamp is abstracted to a fixed string. -/
structure NodeSchemaDatabase where
  generatedAt : String := ""
  nodeCount : Nat := 0
  extractionStats : ExtractionStats := {}
  nodes : List (String × ExtractedNodeSchema) := []
  knownIssues : List String := []

/-- One candidate file as the pipeline sees it. -/
structure Candidate where
  stmts : List Stmt
  filePath : String
  imported : List ExtractedParameterSchema := []
  importedNotes : List String := []
  isWrapper : Bool := false
  defaultVersion : Option Value := none
  readFails : Bool := false
  errMsg : String := ""

/-- The schema record built by extractNodeSchemaAST from the collected
description object, parameters, quality and notes. -/
def buildNodeSchema (desc : List (String × Value))
    (params : List ExtractedParameterSchema) (quality : Quality)
    (notes : List String) : ExtractedNodeSchema :=
  { displayName := jsOrV (getKey desc "displayName") (.str "Unknown"),
    name := jsOrV (getKey desc "name") (.str "unknown"),
    description := getKey desc "description",
    group := getKey desc "group",
    version := jsOrV (getKey desc "version") (.num 1),
    icon := getKey desc "icon",
    parameters := params,
    credentials := getKey desc "credentials",
    webhookId := getKey desc "webhookId",
    polling := getKey desc "polling",
    supportsCORS := getKey desc "supportsCORS",
    extractionQuality := quality,
    extractionNotes := notes }

/-- extractNodeSchemaAST of the source: no schema when no description is
found; otherwise direct plus imported parameters, conditional expansion,
quality classification. The second component is the expanded parameter
count added to extractionStats.totalParametersExtracted by
extractPropertiesAST. -/
def extractNodeSchemaAST (stmts : List Stmt) (filePath : String)
    (imported : List ExtractedParameterSchema)
    (importedNotes : List String) :
    Option ExtractedNodeSchema × Nat :=
  match findNodeDescription stmts filePath with
  | (none, _) => (none, 0)
  | (some desc, notes1) =>
      let direct := findDirectProperties stmts
      let notes2 := notes1
        ++ (if 0 < direct.length then
              ["Found " ++ toString direct.length ++ " direct properties"]
            else [])
        ++ importedNotes
      let pr := expandConditionalParameters (direct ++ imported) notes2
      (some (buildNodeSchema desc pr.1
          (determineExtractionQuality pr.1 pr.2) pr.2),
       pr.1.length)

/-- The wrapper note pushed by parseNodeFile on a wrapper file. -/
def wrapperNoteFull (dv : Option Value) : String :=
  "Wrapper file: VersionedNodeType with defaultVersion " ++
    (match dv with
     | some v => if jsTruthy v then jsToString v else "unspecified"
     | none => "unspecified")

/-- The schema outcome of parseNodeFile on a candidate, with the stats
increment as second component (the db-independent core of
parseNodeFile). -/
def parseNodeFilePure (c : Candidate) : Option ExtractedNodeSchema × Nat :=
  if c.readFails then (none, 0)
  else
    let r := extractNodeSchemaAST c.stmts c.filePath c.imported
      c.importedNotes
    match r.1 with
    | some s =>
        (some (if c.isWrapper then
            { s with extractionNotes :=
                s.extractionNotes ++ [wrapperNoteFull c.defaultVersion] }
          else s),
         r.2)
    | none => (none, r.2)

/-- The schema parseNodeFile produces for a candidate. -/
def parseSchema? (c : Candidate) : Option ExtractedNodeSchema :=
  (parseNodeFilePure c).1

/-- The totalParametersExtracted increment a candidate causes. -/
def parseCount (c : Candidate) : Nat :=
  (parseNodeFilePure c).2

/-- parseNodeFile of the source with the database threaded explicitly:
a read/parse failure records a known issue and yields no schema; an
extraction adds the expanded parameter count to the running total. -/
def parseNodeFile (db : NodeSchemaDatabase) (c : Candidate) :
    Option ExtractedNodeSchema × NodeSchemaDatabase :=
  if c.readFails then
    (none,
     { db with knownIssues := db.knownIssues
        ++ ["Error processing " ++ c.filePath ++ ": " ++ c.errMsg] })
  else
    let r := extractNodeSchemaAST c.stmts c.filePath c.imported
      c.importedNotes
    let db' := { db with extractionStats :=
        { db.extractionStats with totalParametersExtracted :=
            db.extractionStats.totalParametersExtracted + r.2 } }
    match r.1 with
    | some s =>
        (some (if c.isWrapper then
            { s with extractionNotes :=
                s.extractionNotes ++ [wrapperNoteFull c.defaultVersion] }
          else s),
         db')
    | none => (none, db')

/-- updateQualityStats of the source. -/
def bumpQuality (st : ExtractionStats) : Quality → ExtractionStats
  | .high => { st with highQuality := st.highQuality + 1 }
  | .medium => { st with mediumQuality := st.mediumQuality + 1 }
  | .low => { st with lowQuality := st.lowQuality + 1 }

/-- Store a winning schema: nodes[key] = schema, nodeCount++,
updateQualityStats. -/
def addNode (db : NodeSchemaDatabase) (key : String)
    (s : ExtractedNodeSchema) : NodeSchemaDatabase :=
  { db with
    nodes := setKey db.nodes key s
    nodeCount := db.nodeCount + 1
    extractionStats := bumpQuality db.extractionStats s.extractionQuality }

/-- extractBaseNodeName of the source: file name (or directory name for
generic or test-like file names) with a trailing version suffix
stripped, lower-cased. -/
def extractBaseNodeName (filePath : String) : String :=
  let fileName := fileNameOf filePath
  let dirName := dirNameOf filePath
  let cleanFileName := String.mk (stripTrailingVersion fileName.data)
  let cleanDirName := String.mk (stripTrailingVersion dirName.data)
  if cleanFileName = "index" ∨ strContains cleanFileName "Test" then
    lowerStr cleanDirName
  else lowerStr cleanFileName

/-- One version group of the run: a base name and its candidate files. -/
structure RunGroup where
  baseName : String
  candidates : List Candidate

/-- The loop body collecting scored versions in processNodeGroupAST. -/
def groupStep (acc : List VersionCandidate × NodeSchemaDatabase)
    (file : Candidate) : List VersionCandidate × NodeSchemaDatabase :=
  let r := parseNodeFile acc.2 file
  match r.1 with
  | some s =>
      (acc.1 ++ [⟨s, file.filePath, calculateVersionPriority file.filePath s⟩],
       r.2)
  | none => (acc.1, r.2)

/-- processNodeGroupAST of the source: a single file is stored directly
under its own base name; several files are each parsed and scored, and
the selected best version is stored under the group name with a
selection note appended. -/
def processNodeGroupAST (db : NodeSchemaDatabase) (g : RunGroup) :
    NodeSchemaDatabase :=
  match g.candidates with
  | [file] =>
      let r := parseNodeFile db file
      match r.1 with
      | some s => addNode r.2 (extractBaseNodeName file.filePath) s
      | none => r.2
  | files =>
      let fold := files.foldl groupStep ([], db)
      match fold.1 with
      | [] => fold.2
      | v :: vs =>
          let best := selectBestVersion (v :: vs) (List.cons_ne_nil v vs)
          addNode fold.2 g.baseName
            { best.schema with extractionNotes :=
                best.schema.extractionNotes
                  ++ ["Selected best version from "
                      ++ toString (v :: vs).length
                      ++ " candidates (" ++ best.filePath ++ ")"] }

/-- The empty database a run starts from. -/
def initialDatabase : NodeSchemaDatabase := {}

/-- generateStats of the source: the average is the exact quotient when
nodeCount is positive and 0 otherwise (never a fault; the embedding is a
total function). -/
def generateStats (db : NodeSchemaDatabase) : NodeSchemaDatabase :=
  { db with extractionStats := { db.extractionStats with
      averageParametersPerNode :=
        if 0 < db.nodeCount then
          (db.extractionStats.totalParametersExtracted : ℚ) /
            (db.nodeCount : ℚ)
        else 0 } }

/-- extractAllSchemas of the source: fold all groups, then the stats. -/
def extractAllSchemas (groups : List RunGroup) : NodeSchemaDatabase :=
  generateStats (groups.foldl processNodeGroupAST initialDatabase)

/-- The RAG projection written by saveResults: the same database with
only the high and medium quality nodes, and nodeCount recomputed for the
filtered set (Object.entries / filter / fromEntries / keys length). -/
def ragDatabase (db : NodeSchemaDatabase) : NodeSchemaDatabase :=
  let entries := db.nodes.filter (fun kv =>
    kv.2.extractionQuality == Quality.high
      || kv.2.extractionQuality == Quality.medium)
  let highQualityNodes :=
    entries.foldl (fun m kv => setKey m kv.1 kv.2) []
  { db with
    nodes := highQualityNodes
    nodeCount := highQualityNodes.length }

/-! ### Pipeline lemmas. -/

/-- The known-issue strings a list of candidates contributes. -/
def issuesOf (cs : List Candidate) : List String :=
  cs.flatMap (fun c =>
    if c.readFails then
      ["Error processing " ++ c.filePath ++ ": " ++ c.errMsg]
    else [])

/-- The database after parsing a list of candidates (only the running
total and the known issues change). -/
def dbAfterParses (db : NodeSchemaDatabase) (cs : List Candidate) :
    NodeSchemaDatabase :=
  { db with
    extractionStats := { db.extractionStats with
      totalParametersExtracted :=
        db.extractionStats.totalParametersExtracted
          + (cs.map parseCount).sum }
    knownIssues := db.knownIssues ++ issuesOf cs }

/-- The scored version candidates a list of candidate files produces. -/
def versionsOf (cs : List Candidate) : List VersionCandidate :=
  cs.filterMap (fun c => (parseSchema? c).map
    (fun s => ⟨s, c.filePath, calculateVersionPriority c.filePath s⟩))

theorem parseNodeFile_eq (db : NodeSchemaDatabase) (c : Candidate) :
    parseNodeFile db c = (parseSchema? c, dbAfterParses db [c]) := by
  by_cases h : c.readFails = true
  · simp [parseNodeFile, parseSchema?, parseCount, parseNodeFilePure,
      dbAfterParses, issuesOf, h]
  · have h' : c.readFails = false := by
      revert h; cases c.readFails <;> simp
    simp only [parseNodeFile, parseSchema?, parseCount, parseNodeFilePure,
      dbAfterParses, issuesOf, h']
    cases hr : (extractNodeSchemaAST c.stmts c.filePath c.imported
        c.importedNotes).1 <;>
      simp [hr, parseCount, parseNodeFilePure, h']

theorem groupStep_eq (acc : List VersionCandidate × NodeSchemaDatabase)
    (c : Candidate) :
    groupStep acc c =
      (acc.1 ++ ((parseSchema? c).map
        (fun s => (⟨s, c.filePath, calculateVersionPriority c.filePath s⟩ :
          VersionCandidate))).toList,
       dbAfterParses acc.2 [c]) := by
  unfold groupStep
  rw [parseNodeFile_eq]
  cases hp : parseSchema? c <;> simp [hp]

theorem dbAfterParses_nil (db : NodeSchemaDatabase) :
    dbAfterParses db [] = db := by
  simp [dbAfterParses, issuesOf]

theorem dbAfterParses_append (db : NodeSchemaDatabase)
    (cs ds : List Candidate) :
    dbAfterParses (dbAfterParses db cs) ds = dbAfterParses db (cs ++ ds) := by
  simp [dbAfterParses, issuesOf, Nat.add_assoc, List.append_assoc]

theorem groupFold_spec (cs : List Candidate) :
    ∀ (acc : List VersionCandidate) (db : NodeSchemaDatabase),
      cs.foldl groupStep (acc, db) =
        (acc ++ versionsOf cs, dbAfterParses db cs) := by
  induction cs with
  | nil =>
    intro acc db
    simp [versionsOf, dbAfterParses_nil]
  | cons c rest ih =>
    intro acc db
    rw [List.foldl_cons, groupStep_eq, ih, dbAfterParses_append]
    cases hp : parseSchema? c <;>
      simp [versionsOf, List.filterMap_cons, hp, List.append_assoc]

theorem addNode_total (db : NodeSchemaDatabase) (k : String)
    (s : ExtractedNodeSchema) :
    (addNode db k s).extractionStats.totalParametersExtracted
      = db.extractionStats.totalParametersExtracted := by
  cases hq : s.extractionQuality <;> simp [addNode, bumpQuality, hq]

theorem addNode_nodeCount (db : NodeSchemaDatabase) (k : String)
    (s : ExtractedNodeSchema) :
    (addNode db k s).nodeCount = db.nodeCount + 1 := rfl

theorem addNode_nodes (db : NodeSchemaDatabase) (k : String)
    (s : ExtractedNodeSchema) :
    (addNode db k s).nodes = setKey db.nodes k s := rfl

theorem versionsOf_eq_nil_iff (cs : List Candidate) :
    versionsOf cs = [] ↔ ∀ c ∈ cs, parseSchema? c = none := by
  unfold versionsOf
  rw [List.filterMap_eq_nil_iff]
  constructor
  · intro h c hc
    have := h c hc
    cases hp : parseSchema? c
    · rfl
    · rw [hp] at this; simp at this
  · intro h c hc
    rw [h c hc]
    rfl

theorem dbAfterParses_nodes (db : NodeSchemaDatabase)
    (cs : List Candidate) :
    (dbAfterParses db cs).nodes = db.nodes := rfl

theorem dbAfterParses_nodeCount (db : NodeSchemaDatabase)
    (cs : List Candidate) :
    (dbAfterParses db cs).nodeCount = db.nodeCount := rfl

theorem dbAfterParses_total (db : NodeSchemaDatabase)
    (cs : List Candidate) :
    (dbAfterParses db cs).extractionStats.totalParametersExtracted
      = db.extractionStats.totalParametersExtracted
        + (cs.map parseCount).sum := rfl

theorem any_isSome_of_versionsOf_cons {cs : List Candidate}
    {v : VersionCandidate} {vs : List VersionCandidate}
    (hv : versionsOf cs = v :: vs) :
    (cs.any fun c => (parseSchema? c).isSome) = true := by
  have hmem : v ∈ versionsOf cs := by rw [hv]; exact List.mem_cons_self _ _
  unfold versionsOf at hmem
  obtain ⟨c, hc, hfc⟩ := List.mem_filterMap.mp hmem
  rw [List.any_eq_true]
  refine ⟨c, hc, ?_⟩
  cases hp : parseSchema? c
  · rw [hp] at hfc; simp at hfc
  · rfl

theorem any_isSome_false_of_all_none {cs : List Candidate}
    (h : ∀ c ∈ cs, parseSchema? c = none) :
    (cs.any fun c => (parseSchema? c).isSome) = false := by
  rw [List.any_eq_false]
  intro c hc
  rw [h c hc]
  simp

theorem processNodeGroup_total (db : NodeSchemaDatabase) (g : RunGroup) :
    (processNodeGroupAST db g).extractionStats.totalParametersExtracted
      = db.extractionStats.totalParametersExtracted
        + (g.candidates.map parseCount).sum := by
  rcases g with ⟨name, cs⟩
  cases cs with
  | nil =>
    simp [processNodeGroupAST, dbAfterParses_nil]
  | cons c rest =>
    cases rest with
    | nil =>
      simp only [processNodeGroupAST]
      rw [parseNodeFile_eq]
      cases hp : parseSchema? c <;>
        simp [hp, addNode_total, dbAfterParses_total]
    | cons c2 rest2 =>
      simp only [processNodeGroupAST]
      rw [groupFold_spec, List.nil_append]
      cases hv : versionsOf (c :: c2 :: rest2) with
      | nil => simp [dbAfterParses_total]
      | cons v vs => simp [addNode_total, dbAfterParses_total]

theorem processNodeGroup_nodeCount (db : NodeSchemaDatabase)
    (g : RunGroup) :
    (processNodeGroupAST db g).nodeCount
      = db.nodeCount
        + (if (g.candidates.any fun c => (parseSchema? c).isSome) then 1
           else 0) := by
  rcases g with ⟨name, cs⟩
  cases cs with
  | nil =>
    simp [processNodeGroupAST, dbAfterParses_nil]
  | cons c rest =>
    cases rest with
    | nil =>
      simp only [processNodeGroupAST]
      rw [parseNodeFile_eq]
      cases hp : parseSchema? c <;>
        simp [hp, addNode_nodeCount, dbAfterParses_nodeCount,
          List.any_cons]
    | cons c2 rest2 =>
      simp only [processNodeGroupAST]
      rw [groupFold_spec, List.nil_append]
      cases hv : versionsOf (c :: c2 :: rest2) with
      | nil =>
        have hnone := (versionsOf_eq_nil_iff _).mp hv
        rw [any_isSome_false_of_all_none hnone]
        simp [dbAfterParses_nodeCount]
      | cons v vs =>
        rw [any_isSome_of_versionsOf_cons hv]
        simp [addNode_nodeCount, dbAfterParses_nodeCount]

theorem processNodeGroup_preserve (db : NodeSchemaDatabase) (g : RunGroup)
    (h : ∀ c ∈ g.candidates, parseSchema? c = none) :
    (processNodeGroupAST db g).nodes = db.nodes
      ∧ (processNodeGroupAST db g).nodeCount = db.nodeCount := by
  constructor
  · rcases g with ⟨name, cs⟩
    cases cs with
    | nil => simp [processNodeGroupAST, dbAfterParses_nodes]
    | cons c rest =>
      cases rest with
      | nil =>
        simp only [processNodeGroupAST]
        rw [parseNodeFile_eq]
        rw [h c (List.mem_cons_self _ _)]
        simp [dbAfterParses_nodes]
      | cons c2 rest2 =>
        simp only [processNodeGroupAST]
        rw [groupFold_spec, List.nil_append]
        have hv : versionsOf (c :: c2 :: rest2) = [] :=
          (versionsOf_eq_nil_iff _).mpr h
        rw [hv]
        simp [dbAfterParses_nodes]
  · rw [processNodeGroup_nodeCount, any_isSome_false_of_all_none h]
    simp

/-! ### C6: structural-shape misses. -/

/-- Does the file contain any recognizable description declaration? -/
def hasDescriptionDecl (stmts : List Stmt) : Bool :=
  !(collectDescSources stmts).isEmpty

/-- Does the file contain any recognizable property declaration? -/
def hasPropertiesDecl (stmts : List Stmt) : Bool :=
  !(collectParamObjSources stmts).isEmpty

theorem findNodeDescription_fst_none {stmts : List Stmt}
    {filePath : String}
    (hsrc : collectDescSources stmts = [])
    (hfile : fileNameOf filePath = "index")
    (hdir : dirNameOf filePath = "nodes" ∨ dirNameOf filePath = "base") :
    (findNodeDescription stmts filePath).1 = none := by
  unfold findNodeDescription
  rw [hsrc, hfile]
  rcases hdir with h | h <;> rw [h] <;> rfl

theorem extractNodeSchemaAST_fst_none {stmts : List Stmt} {fp : String}
    {imported : List ExtractedParameterSchema} {inotes : List String}
    (h : (findNodeDescription stmts fp).1 = none) :
    extractNodeSchemaAST stmts fp imported inotes = (none, 0) := by
  unfold extractNodeSchemaAST
  rcases hfd : findNodeDescription stmts fp with ⟨d, ns⟩
  rw [hfd] at h
  dsimp at h
  subst h
  rfl

/-- The counterexample candidate: a file with no declarations at all,
in a normally-named node directory. -/
def cexC6Cand : Candidate :=
  { stmts := [], filePath := "packages/nodes-base/nodes/Foo/Foo.node.ts" }

/-- C6 counterexample: a candidate file in which no description
declaration and no property declaration is found still yields a schema,
because findNodeDescription falls back to inferring the display name
from the directory name Foo; the candidate is therefore not excluded
from its version group. -/
theorem structural_miss_counterexample :
    hasDescriptionDecl cexC6Cand.stmts = false
    ∧ hasPropertiesDecl cexC6Cand.stmts = false
    ∧ (parseSchema? cexC6Cand).isSome = true := by
  refine ⟨rfl, rfl, rfl⟩

/-- C6 (amended): a candidate file with no recognizable description
declaration and no property declaration yields no schema exactly in the
cases where the name-inference fallback is also unavailable, i.e. its
file name (with the node suffix stripped) is the generic index and its
directory is the generic nodes or base; such a candidate is excluded
from its version group, and a group all of whose candidates yield no
schema leaves the node mapping and node count of the RunDatabase
unchanged (absence, not a placeholder entry). -/
theorem structural_miss_no_entry :
    (∀ c : Candidate,
        hasDescriptionDecl c.stmts = false →
        hasPropertiesDecl c.stmts = false →
        fileNameOf c.filePath = "index" →
        (dirNameOf c.filePath = "nodes" ∨ dirNameOf c.filePath = "base") →
        parseSchema? c = none)
    ∧ (∀ (db : NodeSchemaDatabase) (g : RunGroup),
        (∀ c ∈ g.candidates, parseSchema? c = none) →
        (processNodeGroupAST db g).nodes = db.nodes
          ∧ (processNodeGroupAST db g).nodeCount = db.nodeCount) := by
  constructor
  · intro c hdesc _hprops hfile hdir
    have hsrc : collectDescSources c.stmts = [] := by
      unfold hasDescriptionDecl at hdesc
      cases hcc : collectDescSources c.stmts with
      | nil => rfl
      | cons a l => rw [hcc] at hdesc; simp at hdesc
    have hex : extractNodeSchemaAST c.stmts c.filePath c.imported
        c.importedNotes = (none, 0) :=
      extractNodeSchemaAST_fst_none
        (findNodeDescription_fst_none hsrc hfile hdir)
    unfold parseSchema? parseNodeFilePure
    cases hrf : c.readFails
    · simp [hex]
    · simp
  · exact fun db g h => processNodeGroup_preserve db g h

/-- The witness candidate for the amended C6: an index.node.ts file
directly under a nodes directory, with no declarations. -/
def cexC6IdxCand : Candidate :=
  { stmts := [], filePath := "packages/nodes-base/nodes/index.node.ts" }

/-- The witness group for the amended C6. -/
def cexC6Group : RunGroup :=
  { baseName := "idx", candidates := [cexC6IdxCand] }

/-- Witness for C6 (amended) at the concrete candidate and group. -/
theorem structural_miss_no_entry_witness :
    parseSchema? cexC6IdxCand = none
    ∧ (processNodeGroupAST initialDatabase cexC6Group).nodes
        = initialDatabase.nodes := by
  constructor
  · exact structural_miss_no_entry.1 cexC6IdxCand rfl rfl (by decide)
      (Or.inl (by decide))
  · exact (structural_miss_no_entry.2 initialDatabase cexC6Group
      (fun c hc => by
        rw [List.mem_singleton.mp hc]
        rfl)).1

/-! ### C7: the name/type extraction invariant. -/

/-- The extraction invariant of a Parameter record: its name and its
type tag are JS-truthy (for a string: non-empty). -/
def truthyNameType (p : ExtractedParameterSchema) : Prop :=
  jsTruthy p.name = true ∧ jsTruthy p.type = true

theorem parsePropertyObject_truthy (props : List (Option String × Expr))
    (p : ExtractedParameterSchema)
    (h : parsePropertyObject props = some p) : truthyNameType p := by
  unfold parsePropertyObject at h
  dsimp only at h
  split at h
  · split_ifs at h with htr
    obtain rfl := Option.some.inj h
    exact ⟨htr.1, htr.2⟩
  · exact absurd h (by simp)

theorem findDirectProperties_truthy (stmts : List Stmt)
    (p : ExtractedParameterSchema) (h : p ∈ findDirectProperties stmts) :
    truthyNameType p := by
  unfold findDirectProperties at h
  obtain ⟨props, _, hparse⟩ := List.mem_filterMap.mp h
  exact parsePropertyObject_truthy props p hparse

theorem buildNodeSchema_parameters (d : List (String × Value))
    (ps : List ExtractedParameterSchema) (q : Quality)
    (ns : List String) : (buildNodeSchema d ps q ns).parameters = ps := rfl

/-- The first component of the expansion, in declarative form (shared by
the C5 proof and the invariant proofs). -/
theorem expandConditionalParameters_fst
    (ps : List ExtractedParameterSchema) (notes : List String) :
    (expandConditionalParameters ps notes).1 =
      ps ++ ps.flatMap (fun p => (showArrayPairs p).map
        (fun kv => mkConditionalParam p kv.1 kv.2)) := by
  unfold expandConditionalParameters
  dsimp only
  rw [expand_outer]

theorem jsTruthy_derived_name (a k b : String) :
    jsTruthy (.str (a ++ "_when_" ++ k ++ "_" ++ b)) = true := by
  unfold jsTruthy
  rw [Bool.not_eq_eq_eq_not, Bool.not_true, Bool.eq_false_iff, Ne,
    String.isEmpty_iff]
  intro h
  have hlen := congrArg String.length h
  rw [String.length_append, String.length_append, String.length_append,
    String.length_append] at hlen
  have h6 : "_when_".length = 6 := rfl
  rw [h6] at hlen
  simp at hlen

theorem expand_truthy (ps : List ExtractedParameterSchema)
    (notes : List String)
    (hps : ∀ p ∈ ps, truthyNameType p)
    (q : ExtractedParameterSchema)
    (hq : q ∈ (expandConditionalParameters ps notes).1) :
    truthyNameType q := by
  rw [expandConditionalParameters_fst] at hq
  rcases List.mem_append.mp hq with h | h
  · exact hps q h
  · obtain ⟨p, hp, hq2⟩ := List.mem_flatMap.mp h
    obtain ⟨kv, _, rfl⟩ := List.mem_map.mp hq2
    exact ⟨jsTruthy_derived_name _ _ _, (hps p hp).2⟩

theorem extractNodeSchemaAST_truthy (stmts : List Stmt) (fp : String)
    (imported : List ExtractedParameterSchema) (inotes : List String)
    (himp : ∀ p ∈ imported, truthyNameType p)
    (s : ExtractedNodeSchema)
    (hs : (extractNodeSchemaAST stmts fp imported inotes).1 = some s) :
    ∀ p ∈ s.parameters, truthyNameType p := by
  unfold extractNodeSchemaAST at hs
  rcases hfd : findNodeDescription stmts fp with ⟨d, ns⟩
  rw [hfd] at hs
  cases d with
  | none => exact absurd hs (by simp)
  | some desc =>
    dsimp only at hs
    obtain rfl := Option.some.inj hs
    intro p hp
    rw [buildNodeSchema_parameters] at hp
    refine expand_truthy _ _ ?_ p hp
    intro q hq
    rcases List.mem_append.mp hq with h | h
    · exact findDirectProperties_truthy stmts q h
    · exact himp q h

/-- C7: every Parameter record emitted by the extractor, whether parsed
directly from an object literal, collected by findDirectProperties, or
derived by conditional expansion, has a truthy (non-empty) name and type
tag; an object literal missing either is discarded entirely (only some
results ever carry a record); and a parsed schema whose resolver
contribution satisfies the invariant has only invariant-satisfying
parameters. -/
theorem parameter_records_truthy :
    (∀ (props : List (Option String × Expr))
       (p : ExtractedParameterSchema),
        parsePropertyObject props = some p → truthyNameType p)
    ∧ (∀ (stmts : List Stmt) (p : ExtractedParameterSchema),
        p ∈ findDirectProperties stmts → truthyNameType p)
    ∧ (∀ (ps : List ExtractedParameterSchema) (notes : List String),
        (∀ p ∈ ps, truthyNameType p) →
        ∀ q ∈ (expandConditionalParameters ps notes).1, truthyNameType q)
    ∧ (∀ (c : Candidate) (s : ExtractedNodeSchema),
        parseSchema? c = some s →
        (∀ p ∈ c.imported, truthyNameType p) →
        ∀ p ∈ s.parameters, truthyNameType p) := by
  refine ⟨parsePropertyObject_truthy, findDirectProperties_truthy,
    expand_truthy, ?_⟩
  intro c s hs himp p hp
  unfold parseSchema? parseNodeFilePure at hs
  by_cases hrf : c.readFails = true
  · rw [if_pos hrf] at hs
    exact absurd hs (by simp)
  · rw [if_neg hrf] at hs
    dsimp only at hs
    rcases hex : (extractNodeSchemaAST c.stmts c.filePath c.imported
        c.importedNotes).1 with _ | s0 <;> rw [hex] at hs
    · exact absurd hs (by simp)
    · dsimp only at hs
      obtain rfl := Option.some.inj hs
      have hparams := extractNodeSchemaAST_truthy c.stmts c.filePath
        c.imported c.importedNotes himp s0 hex
      cases hw : c.isWrapper <;> rw [hw] at hp <;> simp only [if_true,
        Bool.false_eq_true, if_false] at hp
      · exact hparams p hp
      · exact hparams p hp

/-- The parameter object of the C7 witness. -/
def cexC7Props : List (Option String × Expr) :=
  [(some "name", .strLit "limit"), (some "type", .strLit "number"),
   (some "default", .numLit 50)]

/-- The parameter record parsed from the C7 witness object. -/
def cexC7Param : ExtractedParameterSchema :=
  (parsePropertyObject cexC7Props).getD
    { name := .str "x", displayName := .str "x", type := .str "x" }

/-- Witness for C7: the concrete parsed parameter record satisfies the
extraction invariant. -/
theorem parameter_records_truthy_witness : truthyNameType cexC7Param :=
  parameter_records_truthy.1 cexC7Props cexC7Param rfl

/-! ### C8: the run-wide average. -/

/-- C8: after generateStats, averageParametersPerNode equals exactly
totalParametersExtracted divided by nodeCount when nodeCount is
positive, and 0 when nodeCount is 0; the embedded computation is a total
function (the division is guarded, never a fault). -/
theorem generateStats_spec (db : NodeSchemaDatabase) :
    (db.nodeCount ≠ 0 →
      (generateStats db).extractionStats.averageParametersPerNode =
        (db.extractionStats.totalParametersExtracted : ℚ) /
          (db.nodeCount : ℚ))
    ∧ (db.nodeCount = 0 →
      (generateStats db).extractionStats.averageParametersPerNode = 0) := by
  constructor
  · intro h
    have hpos : 0 < db.nodeCount := Nat.pos_of_ne_zero h
    simp [generateStats, hpos]
  · intro h
    simp [generateStats, h]

/-- A concrete database with 2 nodes and 7 extracted parameters. -/
def demoStatsDb : NodeSchemaDatabase :=
  { nodeCount := 2, extractionStats := { totalParametersExtracted := 7 } }

/-- Witness for C8 at a concrete positive and a concrete zero count. -/
theorem generateStats_spec_witness :
    (demoStatsDb.nodeCount ≠ 0 ∧
      (generateStats demoStatsDb).extractionStats.averageParametersPerNode
        = 7 / 2)
    ∧ (initialDatabase.nodeCount = 0 ∧
      (generateStats initialDatabase).extractionStats.averageParametersPerNode
        = 0) := by
  refine ⟨⟨by decide, ?_⟩, rfl, (generateStats_spec initialDatabase).2 rfl⟩
  rw [(generateStats_spec demoStatsDb).1 (by decide)]
  norm_num [demoStatsDb]

/-! ### C9: the filtered output projection. -/

theorem setKey_append_of_not_mem {α : Type _} (acc : List (String × α))
    (k : String) (v : α) (h : ∀ kv ∈ acc, kv.1 ≠ k) :
    setKey acc k v = acc ++ [(k, v)] := by
  induction acc with
  | nil => rfl
  | cons a rest ih =>
    rcases a with ⟨k', v'⟩
    have hne : k' ≠ k := h (k', v') (List.mem_cons_self _ _)
    rw [setKey, if_neg hne]
    rw [ih (fun kv hkv => h kv (List.mem_cons_of_mem _ hkv))]
    rfl

theorem fromEntries_nodup {α : Type _} :
    ∀ (l acc : List (String × α)),
      (((acc ++ l).map Prod.fst).Nodup) →
      l.foldl (fun m kv => setKey m kv.1 kv.2) acc = acc ++ l := by
  intro l
  induction l with
  | nil => intro acc _; simp
  | cons kv rest ih =>
    intro acc h
    rw [List.foldl_cons]
    have hnotin : ∀ p ∈ acc, p.1 ≠ kv.1 := by
      intro p hp heq
      rw [List.map_append] at h
      have hd := (List.nodup_append.mp h).2.2
      refine hd (a := p.1) (List.mem_map_of_mem _ hp) ?_
      rw [heq, List.map_cons]
      exact List.mem_cons_self _ _
    rw [setKey_append_of_not_mem acc kv.1 kv.2 hnotin]
    have h' : (((acc ++ [kv]) ++ rest).map Prod.fst).Nodup := by
      rw [List.append_assoc, List.singleton_append]
      exact h
    rw [ih (acc ++ [kv]) h', List.append_assoc, List.singleton_append]

/-- C9: the filtered output document contains exactly those node entries
of the full database whose quality is high or medium (in particular a
subset of the full entries), its nodeCount equals the size of its own
nodes mapping, and every other field is carried over unchanged (a pure
projection of the same shape). The hypothesis that the node keys are
distinct is the JS-object representation invariant of the nodes map. -/
theorem ragDatabase_spec (db : NodeSchemaDatabase)
    (h : (db.nodes.map Prod.fst).Nodup) :
    (∀ kv, kv ∈ (ragDatabase db).nodes ↔
      (kv ∈ db.nodes ∧ (kv.2.extractionQuality = .high ∨
        kv.2.extractionQuality = .medium)))
    ∧ (ragDatabase db).nodeCount = (ragDatabase db).nodes.length
    ∧ (ragDatabase db).generatedAt = db.generatedAt
    ∧ (ragDatabase db).extractionStats = db.extractionStats
    ∧ (ragDatabase db).knownIssues = db.knownIssues := by
  have hsub : ((db.nodes.filter (fun kv =>
      kv.2.extractionQuality == Quality.high
        || kv.2.extractionQuality == Quality.medium)).map Prod.fst).Nodup :=
    ((List.filter_sublist db.nodes).map Prod.fst).nodup h
  have hfrom : (db.nodes.filter (fun kv =>
      kv.2.extractionQuality == Quality.high
        || kv.2.extractionQuality == Quality.medium)).foldl
        (fun m kv => setKey m kv.1 kv.2) [] =
      db.nodes.filter (fun kv =>
        kv.2.extractionQuality == Quality.high
          || kv.2.extractionQuality == Quality.medium) := by
    refine fromEntries_nodup _ [] ?_
    simpa using hsub
  refine ⟨?_, ?_, rfl, rfl, rfl⟩
  · intro kv
    show kv ∈ (db.nodes.filter _).foldl (fun m kv => setKey m kv.1 kv.2) []
      ↔ _
    rw [hfrom, List.mem_filter]
    constructor
    · rintro ⟨h1, h2⟩
      refine ⟨h1, ?_⟩
      simpa using h2
    · rintro ⟨h1, h2⟩
      refine ⟨h1, ?_⟩
      simpa using h2
  · show ((db.nodes.filter _).foldl (fun m kv => setKey m kv.1 kv.2)
      []).length = _
    rfl

/-- A concrete database with one high-quality and one low-quality node. -/
def demoRagDb : NodeSchemaDatabase :=
  { nodeCount := 2,
    nodes := [("h", { displayName := .str "H", name := .str "h",
                      extractionQuality := .high }),
              ("l", { displayName := .str "L", name := .str "l" })] }

/-- Witness for C9 at the concrete two-node database. -/
theorem ragDatabase_spec_witness :
    ((demoRagDb.nodes.map Prod.fst).Nodup) ∧
      (ragDatabase demoRagDb).nodeCount
        = (ragDatabase demoRagDb).nodes.length := by
  have h : (demoRagDb.nodes.map Prod.fst).Nodup := by
    simp [demoRagDb]
  exact ⟨h, (ragDatabase_spec demoRagDb h).2.1⟩

/-! ### C10: run-level accounting of totals, node counts and averages. -/

theorem extractNodeSchemaAST_none_snd {stmts : List Stmt} {fp : String}
    {imported : List ExtractedParameterSchema} {inotes : List String}
    (h : (extractNodeSchemaAST stmts fp imported inotes).1 = none) :
    (extractNodeSchemaAST stmts fp imported inotes).2 = 0 := by
  unfold extractNodeSchemaAST at h ⊢
  generalize hfd : findNodeDescription stmts fp = pr at h ⊢
  obtain ⟨d, ns⟩ := pr
  cases d with
  | none => rfl
  | some desc => exact absurd h (by simp)

theorem extractNodeSchemaAST_some_snd {stmts : List Stmt} {fp : String}
    {imported : List ExtractedParameterSchema} {inotes : List String}
    {s : ExtractedNodeSchema}
    (h : (extractNodeSchemaAST stmts fp imported inotes).1 = some s) :
    (extractNodeSchemaAST stmts fp imported inotes).2
      = s.parameters.length := by
  unfold extractNodeSchemaAST at h ⊢
  generalize hfd : findNodeDescription stmts fp = pr at h ⊢
  obtain ⟨d, ns⟩ := pr
  cases d with
  | none => exact absurd h (by simp)
  | some desc =>
    dsimp only at h ⊢
    obtain rfl := Option.some.inj h
    rfl

theorem parseCount_none {c : Candidate} (h : parseSchema? c = none) :
    parseCount c = 0 := by
  unfold parseSchema? parseNodeFilePure at h
  unfold parseCount parseNodeFilePure
  cases hrf : c.readFails
  · rw [hrf] at h
    simp only [Bool.false_eq_true, if_false] at h ⊢
    rcases hex : (extractNodeSchemaAST c.stmts c.filePath c.imported
        c.importedNotes).1 with _ | s0 <;> rw [hex] at h <;> dsimp only
    · exact extractNodeSchemaAST_none_snd hex
    · exact absurd h (by simp)
  · rfl

theorem parseCount_some {c : Candidate} {s : ExtractedNodeSchema}
    (h : parseSchema? c = some s) :
    parseCount c = s.parameters.length := by
  unfold parseSchema? parseNodeFilePure at h
  unfold parseCount parseNodeFilePure
  cases hrf : c.readFails
  · rw [hrf] at h
    simp only [Bool.false_eq_true, if_false] at h ⊢
    rcases hex : (extractNodeSchemaAST c.stmts c.filePath c.imported
        c.importedNotes).1 with _ | s0 <;> rw [hex] at h <;> dsimp only
    · exact absurd h (by simp)
    · dsimp only at h
      obtain rfl := Option.some.inj h
      rw [extractNodeSchemaAST_some_snd hex]
      cases c.isWrapper <;> rfl
  · rw [hrf] at h
    exact absurd h (by simp)

theorem sum_versions_params (cs : List Candidate) :
    ((versionsOf cs).map (fun v => v.schema.parameters.length)).sum
      = (cs.map parseCount).sum := by
  induction cs with
  | nil => rfl
  | cons c rest ih =>
    unfold versionsOf at ih ⊢
    rw [List.filterMap_cons]
    cases hp : parseSchema? c with
    | none =>
      dsimp only [Option.map]
      rw [List.map_cons, List.sum_cons, parseCount_none hp]
      simpa using ih
    | some s =>
      dsimp only [Option.map] at ih ⊢
      rw [List.map_cons, List.sum_cons, List.map_cons, List.sum_cons,
        parseCount_some hp, ih]

theorem single_mem_le_sum {α : Type _} (f : α → Nat) :
    ∀ (l : List α) (a : α), a ∈ l → f a ≤ (l.map f).sum := by
  intro l
  induction l with
  | nil => intro a ha; exact absurd ha (List.not_mem_nil a)
  | cons x xs ih =>
    intro a ha
    rw [List.map_cons, List.sum_cons]
    rcases List.mem_cons.mp ha with rfl | ha'
    · exact Nat.le_add_right _ _
    · exact le_trans (ih a ha') (Nat.le_add_left _ _)

theorem two_mem_le_sum {α : Type _} (f : α → Nat) :
    ∀ (l : List α) (a b : α), a ∈ l → b ∈ l → a ≠ b →
      f a + f b ≤ (l.map f).sum := by
  intro l
  induction l with
  | nil => intro a b ha; exact absurd ha (List.not_mem_nil a)
  | cons x xs ih =>
    intro a b ha hb hne
    rw [List.map_cons, List.sum_cons]
    rcases List.mem_cons.mp ha with rfl | ha'
    · rcases List.mem_cons.mp hb with rfl | hb'
      · exact absurd rfl hne
      · have := single_mem_le_sum f xs b hb'
        omega
    · rcases List.mem_cons.mp hb with rfl | hb'
      · have := single_mem_le_sum f xs a ha'
        omega
      · have := ih a b ha' hb' hne
        omega

/-- The expanded parameter count contributed by one whole group. -/
def groupTotal (g : RunGroup) : Nat :=
  (g.candidates.map parseCount).sum

/-- The parameter count of the group's winning schema (0 when the group
yields no schema). -/
def groupWinnerCount (g : RunGroup) : Nat :=
  match g.candidates with
  | [c] => parseCount c
  | cs =>
      match (sortByPriorityDesc (versionsOf cs)).head? with
      | some best => best.schema.parameters.length
      | none => 0

/-- The total parameter count of the run's winning schemas. -/
def winnersSum (groups : List RunGroup) : Nat :=
  (groups.map groupWinnerCount).sum

theorem head?_mem {α : Type _} {l : List α} {a : α}
    (h : l.head? = some a) : a ∈ l := by
  cases l with
  | nil => exact absurd h (by simp)
  | cons x xs =>
    rw [List.head?_cons] at h
    obtain rfl := Option.some.inj h
    exact List.mem_cons_self _ _

theorem groupWinner_le_total (g : RunGroup) :
    groupWinnerCount g ≤ groupTotal g := by
  rcases g with ⟨name, cs⟩
  unfold groupWinnerCount groupTotal
  cases cs with
  | nil => simp [versionsOf, sortByPriorityDesc]
  | cons c rest =>
    cases rest with
    | nil => simp
    | cons c2 r2 =>
      dsimp only
      cases hh : (sortByPriorityDesc (versionsOf (c :: c2 :: r2))).head? with
      | none => exact Nat.zero_le _
      | some best =>
        have hmem : best ∈ versionsOf (c :: c2 :: r2) :=
          ((perm_sortByPriorityDesc _).mem_iff).mp (head?_mem hh)
        have h1 := single_mem_le_sum
          (fun v : VersionCandidate => v.schema.parameters.length)
          (versionsOf (c :: c2 :: r2)) best hmem
        rw [sum_versions_params] at h1
        exact h1

theorem run_total (groups : List RunGroup) :
    ∀ db0 : NodeSchemaDatabase,
      (groups.foldl processNodeGroupAST db0).extractionStats.totalParametersExtracted
        = db0.extractionStats.totalParametersExtracted
          + (groups.map groupTotal).sum := by
  induction groups with
  | nil => intro db0; simp
  | cons g rest ih =>
    intro db0
    rw [List.foldl_cons, ih, processNodeGroup_total]
    rw [List.map_cons, List.sum_cons]
    unfold groupTotal
    omega

theorem run_nodeCount (groups : List RunGroup) :
    ∀ db0 : NodeSchemaDatabase,
      (groups.foldl processNodeGroupAST db0).nodeCount
        = db0.nodeCount
          + groups.countP (fun g =>
              g.candidates.any fun c => (parseSchema? c).isSome) := by
  induction groups with
  | nil => intro db0; simp
  | cons g rest ih =>
    intro db0
    rw [List.foldl_cons, ih, processNodeGroup_nodeCount, List.countP_cons]
    by_cases hp : (g.candidates.any fun c => (parseSchema? c).isSome) = true
    · rw [hp]
      simp
      omega
    · have hp' : (g.candidates.any fun c => (parseSchema? c).isSome)
          = false := by
        revert hp
        cases g.candidates.any fun c => (parseSchema? c).isSome <;> simp
      rw [hp']
      simp

theorem extractAll_total (groups : List RunGroup) :
    (extractAllSchemas groups).extractionStats.totalParametersExtracted
      = (groups.map groupTotal).sum := by
  show (groups.foldl processNodeGroupAST
    initialDatabase).extractionStats.totalParametersExtracted = _
  rw [run_total]
  simp [initialDatabase]

theorem extractAll_nodeCount (groups : List RunGroup) :
    (extractAllSchemas groups).nodeCount
      = groups.countP (fun g =>
          g.candidates.any fun c => (parseSchema? c).isSome) := by
  show (groups.foldl processNodeGroupAST initialDatabase).nodeCount = _
  rw [run_nodeCount]
  simp [initialDatabase]

/-- C10: totalParametersExtracted is the sum of the expanded parameter
counts of every candidate parsed during the run (parseCount, which is 0
exactly for candidates that yield no schema), including candidates that
later lose version selection, while nodeCount counts one winning schema
per group with any successful parse; consequently, whenever a
multi-candidate group has a parsed losing candidate with at least one
parameter, averageParametersPerNode strictly exceeds the average
parameter count of the winning schemas alone. -/
theorem run_accounting (groups : List RunGroup) :
    ((extractAllSchemas groups).extractionStats.totalParametersExtracted
      = (groups.map (fun g => (g.candidates.map parseCount).sum)).sum)
    ∧ ((extractAllSchemas groups).nodeCount
      = groups.countP (fun g =>
          g.candidates.any fun c => (parseSchema? c).isSome))
    ∧ (∀ g ∈ groups, 2 ≤ g.candidates.length →
        ∀ (v : VersionCandidate) (hv : versionsOf g.candidates ≠ []),
          v ∈ versionsOf g.candidates →
          v ≠ selectBestVersion (versionsOf g.candidates) hv →
          1 ≤ v.schema.parameters.length →
          (winnersSum groups : ℚ) /
              ((extractAllSchemas groups).nodeCount : ℚ)
            < (extractAllSchemas groups).extractionStats.averageParametersPerNode) := by
  refine ⟨extractAll_total groups, extractAll_nodeCount groups, ?_⟩
  intro g hg hlen v hv hvmem hvne hvp
  have hbmem : selectBestVersion (versionsOf g.candidates) hv
      ∈ versionsOf g.candidates := selectBestVersion_mem _ hv
  have hgw : groupWinnerCount g =
      (selectBestVersion (versionsOf g.candidates) hv).schema.parameters.length := by
    rcases g with ⟨name, cs⟩
    cases cs with
    | nil => simp at hlen
    | cons c rest =>
      cases rest with
      | nil => simp at hlen
      | cons c2 r2 =>
        unfold groupWinnerCount
        dsimp only
        rw [List.head?_eq_head (sortByPriorityDesc_ne_nil hv)]
        rfl
  have hstrict : groupWinnerCount g + 1 ≤ groupTotal g := by
    rw [hgw]
    have h2 := two_mem_le_sum
      (fun w : VersionCandidate => w.schema.parameters.length)
      (versionsOf g.candidates) _ v hbmem hvmem (fun he => hvne he.symm)
    rw [sum_versions_params] at h2
    dsimp only at h2
    unfold groupTotal
    omega
  have hWle : winnersSum groups + 1 ≤ (groups.map groupTotal).sum := by
    obtain ⟨l1, l2, rfl⟩ := List.append_of_mem hg
    unfold winnersSum
    rw [List.map_append, List.map_cons, List.sum_append, List.sum_cons,
      List.map_append, List.map_cons, List.sum_append, List.sum_cons]
    have hl1 : (l1.map groupWinnerCount).sum ≤ (l1.map groupTotal).sum :=
      List.sum_le_sum (fun x _ => groupWinner_le_total x)
    have hl2 : (l2.map groupWinnerCount).sum ≤ (l2.map groupTotal).sum :=
      List.sum_le_sum (fun x _ => groupWinner_le_total x)
    omega
  have hcnt : 1 ≤ (extractAllSchemas groups).nodeCount := by
    rw [extractAll_nodeCount]
    have hpred : (g.candidates.any fun c => (parseSchema? c).isSome)
        = true := by
      obtain ⟨v0, vs0, hcons⟩ := List.exists_cons_of_ne_nil hv
      exact any_isSome_of_versionsOf_cons hcons
    have hpos : 0 < groups.countP (fun g =>
        g.candidates.any fun c => (parseSchema? c).isSome) :=
      List.countP_pos_iff.mpr ⟨g, hg, hpred⟩
    omega
  have htot : (extractAllSchemas groups).extractionStats.totalParametersExtracted
      = (groups.map groupTotal).sum := extractAll_total groups
  have havg : (extractAllSchemas groups).extractionStats.averageParametersPerNode
      = ((extractAllSchemas groups).extractionStats.totalParametersExtracted : ℚ)
        / ((extractAllSchemas groups).nodeCount : ℚ) := by
    have hpos : 0 < (groups.foldl processNodeGroupAST
        initialDatabase).nodeCount := hcnt
    show (generateStats (groups.foldl processNodeGroupAST
      initialDatabase)).extractionStats.averageParametersPerNode = _
    unfold generateStats
    dsimp only
    rw [if_pos hpos]
    rfl
  rw [havg, htot]
  have hlt : (winnersSum groups : ℚ) < (((groups.map groupTotal).sum : Nat) : ℚ) := by
    exact_mod_cast (by omega :
      winnersSum groups < (groups.map groupTotal).sum)
  have hc : (0 : ℚ) < ((extractAllSchemas groups).nodeCount : ℚ) := by
    exact_mod_cast (by omega : 0 < (extractAllSchemas groups).nodeCount)
  exact (div_lt_div_iff_of_pos_right hc).mpr hlt

/-- A description variable statement for the witness files. -/
def demoDescStmt : Stmt :=
  .varStmt false [("description", some (.objLit
    [(some "displayName", .strLit "Foo"), (some "name", .strLit "foo")]))]

/-- A well-formed parameter object literal. -/
def demoParamObj : Expr :=
  .objLit [(some "name", .strLit "p"), (some "type", .strLit "string")]

/-- A properties: array statement with n parameter objects. -/
def demoPropsStmt (n : Nat) : Stmt :=
  .exprStmt (.objLit [(some "properties",
    .arrLit (List.replicate n demoParamObj))])

/-- The winning witness candidate: a V2 file with 9 parameters. -/
def demoCandWin : Candidate :=
  { stmts := [demoDescStmt, demoPropsStmt 9],
    filePath := "packages/nodes-base/nodes/Foo/FooV2.node.ts" }

/-- The losing witness candidate: an unversioned file with 1 parameter. -/
def demoCandLose : Candidate :=
  { stmts := [demoDescStmt, demoPropsStmt 1],
    filePath := "packages/nodes-base/nodes/Foo/Foo.node.ts" }

/-- The candidates of the witness group. -/
def demoRunCandidates : List Candidate := [demoCandWin, demoCandLose]

/-- The witness group. -/
def demoRunGroup : RunGroup :=
  { baseName := "foo", candidates := demoRunCandidates }

/-- The witness run: one multi-candidate group. -/
def demoRun : List RunGroup := [demoRunGroup]

/-- A throwaway default candidate for safe list extraction. -/
def vcDefault : VersionCandidate :=
  ⟨{ displayName := .str "", name := .str "" }, "", 0⟩

/-- The scored winning candidate of the witness group. -/
def demoWinVC : VersionCandidate :=
  (versionsOf demoRunCandidates).head?.getD vcDefault

/-- The scored losing candidate of the witness group. -/
def demoLoseVC : VersionCandidate :=
  ((versionsOf demoRunCandidates).drop 1).head?.getD vcDefault

theorem demoVersions_eq :
    versionsOf demoRunGroup.candidates = [demoWinVC, demoLoseVC] := rfl

theorem demoVersions_ne_nil : versionsOf demoRunGroup.candidates ≠ [] := by
  intro h
  exact absurd (congrArg List.length h) (by decide)

/-- Witness for C10: in the concrete run with a 9-parameter winner and a
1-parameter loser in one group, the average strictly exceeds the
winners-only average. -/
theorem run_accounting_witness :
    (winnersSum demoRun : ℚ) / ((extractAllSchemas demoRun).nodeCount : ℚ)
      < (extractAllSchemas demoRun).extractionStats.averageParametersPerNode := by
  have hsel : selectBestVersion (versionsOf demoRunGroup.candidates)
      demoVersions_ne_nil = demoWinVC := rfl
  refine (run_accounting demoRun).2.2 demoRunGroup (by simp [demoRun])
    (by decide) demoLoseVC demoVersions_ne_nil ?_ ?_ (by decide)
  · rw [demoVersions_eq]
    simp
  · rw [hsel]
    intro h
    exact absurd (congrArg (fun vc => vc.schema.parameters.length) h)
      (by decide)

end NodeExtract
